import Mathlib

/-!
Shallow embedding of the bucketcache core: `buckets.py` (`Bucket`,
`DeferredWriteBucket`, `deferred_write`), `backends.py` (the backend classes),
`keymakers.py` (`DefaultKeyMaker`, `StreamingDefaultKeyMaker`),
`utilities.py` (the memoization wrapper), and `exceptions.py`.

Conventions of the embedding:

* `datetime.utcnow()` timestamps and `timedelta` lifetimes are natural
  numbers in a common time unit;
* the on-disk directory is an association list from file names (a stem plus
  an extension, mirroring `pathlib.Path.stem` / suffix) to file contents.
  A file content is either a decodable record `{value, expiration_date}`
  (what a successful `Backend.from_file` would return), an undecodable blob
  (`from_file` raises `BackendLoadError`), or a file whose read fails with a
  non-ENOENT I/O error;
* Python exceptions are values of `Err`; stateful operations return
  `LRes α`, which carries the mutated state on both the success path and the
  exception path, because side effects performed before a `raise` persist;
* the MD5 object of `hashlib` is modelled as the list of bytes fed to it so
  far together with an arbitrary digest function bounded by `2 ^ 128`
  (MD5 is a 128-bit digest); `hexdigest` renders the digest in fixed-width
  hexadecimal (32 characters);
* values stored in the cache and backend configuration objects are opaque to
  the core, so both are modelled as natural numbers.
-/

namespace BucketCache

/-- Association-list lookup (Python `dict` access / directory lookup). -/
def lookupA {κ β : Type} [DecidableEq κ] (k : κ) : List (κ × β) → Option β
  | [] => none
  | p :: ps => if p.1 = k then some p.2 else lookupA k ps

/-- Association-list insert-or-replace (Python `d[k] = v`, or writing a whole
file with `open(path, 'w')`, which truncates any previous content). -/
def insertA {κ β : Type} [DecidableEq κ] (k : κ) (v : β) (l : List (κ × β)) :
    List (κ × β) :=
  (k, v) :: l.filter (fun p => !decide (p.1 = k))

/-- Association-list removal (Python `del d[k]` / `Path.unlink`). -/
def eraseA {κ β : Type} [DecidableEq κ] (k : κ) (l : List (κ × β)) :
    List (κ × β) :=
  l.filter (fun p => !decide (p.1 = k))

theorem lookupA_insertA_self {κ β : Type} [DecidableEq κ] (k : κ) (v : β)
    (l : List (κ × β)) : lookupA k (insertA k v l) = some v := by
  simp [lookupA, insertA]

theorem lookupA_eraseA_self {κ β : Type} [DecidableEq κ] (k : κ)
    (l : List (κ × β)) : lookupA k (eraseA k l) = none := by
  induction l with
  | nil => rfl
  | cons p ps ih =>
    by_cases hp : p.1 = k <;> simp [eraseA, lookupA, hp] at ih ⊢ <;> exact ih

theorem lookupA_eraseA_ne {κ β : Type} [DecidableEq κ] {k k' : κ}
    (l : List (κ × β)) (h : k ≠ k') :
    lookupA k (eraseA k' l) = lookupA k l := by
  have h2 : k' ≠ k := fun hh => h hh.symm
  induction l with
  | nil => rfl
  | cons p ps ih =>
    by_cases hp : p.1 = k'
    · have hpk : p.1 ≠ k := by rw [hp]; exact fun hh => h hh.symm
      simp [eraseA, lookupA, List.filter_cons, hp, hpk, h2] at ih ⊢
      exact ih
    · by_cases hpk : p.1 = k
      · simp [eraseA, lookupA, List.filter_cons, hp, hpk, h]
      · simp [eraseA, lookupA, List.filter_cons, hp, hpk] at ih ⊢
        exact ih

theorem lookupA_insertA_ne {κ β : Type} [DecidableEq κ] {k k' : κ} (v : β)
    (l : List (κ × β)) (h : k ≠ k') :
    lookupA k (insertA k' v l) = lookupA k l := by
  have h2 : k' ≠ k := fun hh => h hh.symm
  have hstep : lookupA k (insertA k' v l) = lookupA k (eraseA k' l) := by
    simp [insertA, eraseA, lookupA, h2]
  rw [hstep, lookupA_eraseA_ne l h]

theorem lookupA_mem {κ β : Type} [DecidableEq κ] {k : κ} {v : β}
    {l : List (κ × β)} (h : lookupA k l = some v) : (k, v) ∈ l := by
  induction l with
  | nil => simp [lookupA] at h
  | cons p ps ih =>
    obtain ⟨a, b⟩ := p
    by_cases hp : a = k
    · subst hp
      simp [lookupA] at h
      subst h
      exact List.mem_cons_self _ _
    · simp [lookupA, hp] at h
      exact List.mem_cons_of_mem _ (ih h)

theorem lookupA_eq_none_of_not_mem_keys {κ β : Type} [DecidableEq κ] {k : κ}
    {l : List (κ × β)} (h : k ∉ l.map Prod.fst) : lookupA k l = none := by
  induction l with
  | nil => rfl
  | cons p ps ih =>
    obtain ⟨a, b⟩ := p
    simp only [List.map_cons, List.mem_cons] at h
    push_neg at h
    have ha : a ≠ k := fun hh => h.1 hh.symm
    simp [lookupA, ha]
    exact ih h.2

/-! ### Bytes, UTF-8 and hexadecimal rendering -/

/-- UTF-8 encoding of a single character (`str.encode('utf-8')`, per
character). -/
def charUtf8 (c : Char) : List Nat :=
  let n := c.toNat
  if n < 0x80 then [n]
  else if n < 0x800 then [0xC0 + n / 64, 0x80 + n % 64]
  else if n < 0x10000 then
    [0xE0 + n / 4096, 0x80 + (n / 64) % 64, 0x80 + n % 64]
  else
    [0xF0 + n / 262144, 0x80 + (n / 4096) % 64, 0x80 + (n / 64) % 64,
     0x80 + n % 64]

/-- UTF-8 encoding of a character list. -/
def utf8Chars (l : List Char) : List Nat :=
  (l.map charUtf8).flatten

/-- UTF-8 encoding of a string (`s.encode('utf-8')`). -/
def utf8 (s : String) : List Nat :=
  utf8Chars s.data

theorem utf8Chars_append (a b : List Char) :
    utf8Chars (a ++ b) = utf8Chars a ++ utf8Chars b := by
  simp [utf8Chars]

/-- Lower-case hexadecimal digit for a value below 16 (`'0'`-`'9'`,
`'a'`-`'f'`). -/
def hexDigitChar (n : Nat) : Char :=
  if n < 10 then Char.ofNat (48 + n) else Char.ofNat (87 + n)

/-- `w` hexadecimal digits of `n`, most significant first, zero padded. -/
def hexFixedAux : Nat → Nat → List Char
  | 0, _ => []
  | w + 1, n => hexFixedAux w (n / 16) ++ [hexDigitChar (n % 16)]

/-- `hashlib.md5(...).hexdigest()`: a 128-bit digest rendered as exactly 32
hexadecimal characters. -/
def hexString32 (n : Nat) : String :=
  ⟨hexFixedAux 32 n⟩

theorem length_hexFixedAux (w n : Nat) : (hexFixedAux w n).length = w := by
  induction w generalizing n with
  | zero => rfl
  | succ w ih => simp [hexFixedAux, ih]

theorem length_hexString32 (n : Nat) : (hexString32 n).length = 32 := by
  show (hexFixedAux 32 n).length = 32
  exact length_hexFixedAux 32 n

/-! ### Backends (`backends.py`) -/

/-- The three concrete backend classes shipped by `backends.py`. -/
inductive BackendKind : Type where
  | pickle
  | json
  | msgpack
deriving DecidableEq

/-- `Backend.__name__`, as fed into the MD5 hash by `Bucket._hash_for_key`. -/
def backendName : BackendKind → String
  | .pickle => "PickleBackend"
  | .json => "JSONBackend"
  | .msgpack => "MessagePackBackend"

/-- `Backend.file_extension` for each concrete backend. -/
def fileExtension : BackendKind → String
  | .pickle => "pickle"
  | .json => "json"
  | .msgpack => "msgpack"

/-- `Backend.default_config()`; configuration objects are opaque to the core,
so each backend's default configuration is one fixed opaque value. -/
def defaultConfig : BackendKind → Nat := fun _ => 0

/-- An abstract 128-bit digest function standing for MD5: any function from
byte strings to numbers below `2 ^ 128`. -/
structure Digest128 : Type where
  f : List Nat → Nat
  lt : ∀ l, f l < 2 ^ 128

/-- A `hashlib.md5` object: the digest function together with all bytes fed
so far. -/
structure MD5 : Type where
  dig : Digest128
  data : List Nat

/-- `hashlib.md5(initial)`. -/
def md5Init (dig : Digest128) (initial : List Nat) : MD5 :=
  ⟨dig, initial⟩

/-- `md5hash.update(batch)`. -/
def MD5.update (m : MD5) (batch : List Nat) : MD5 :=
  ⟨m.dig, m.data ++ batch⟩

/-- `md5hash.hexdigest()`. -/
def MD5.hexdigest (m : MD5) : String :=
  hexString32 (m.dig.f m.data)

/-! ### Key makers (`keymakers.py`) -/

/-- A `KeyMaker`: `make_key(obj)` yields a finite sequence of byte chunks.
The key type `K` is the type of logical keys. -/
structure KeyMaker (K : Type) : Type where
  makeKey : K → List (List Nat)

/-- `DefaultKeyMaker.make_key`: serialize the object with
`json.dumps(obj, sort_keys=..., cls=_AnyObjectJSONEncoder)` and yield the
UTF-8 encoding of the whole string as a single chunk.  The JSON encoder is an
external collaborator, abstracted as the function `dumps`. -/
def defaultKeyMaker {K : Type} (dumps : K → String) : KeyMaker K :=
  ⟨fun k => [utf8 (dumps k)]⟩

/-- `f.read(65536)` chunking: split a character list into chunks of
`n + 1` characters (the source reads 65536 > 0 characters at a time; using
`n + 1` makes the chunk size positive by construction). -/
def chunksOf (n : Nat) : List Char → List (List Char)
  | [] => []
  | c :: cs => ((c :: cs).take (n + 1)) :: chunksOf n ((c :: cs).drop (n + 1))
termination_by l => l.length
decreasing_by simp; omega

/-- `StreamingDefaultKeyMaker.make_key`: `json.dump` the object to a
temporary file, then repeatedly `read(65536)` characters and yield the UTF-8
encoding of each chunk. -/
def streamingDefaultKeyMaker {K : Type} (dumps : K → String) : KeyMaker K :=
  ⟨fun k => (chunksOf 65535 (dumps k).data).map utf8Chars⟩

/-! ### Cache entries, files, errors and state -/

/-- A backend instance: the in-memory cache entry
(`Backend.__init__`: `value`, `expiration_date`, `config`).  Values and
configurations are opaque, modelled as naturals. -/
structure Obj : Type where
  value : Nat
  expiration_date : Option Nat
  config : Nat
deriving DecidableEq

/-- What a stored file holds, as seen through `Backend.from_file`:
a decodable `{value, expiration_date}` record, an undecodable blob
(`from_file` raises `BackendLoadError`), or a file whose read raises a
non-ENOENT `IOError`. -/
inductive Content : Type where
  | good (value : Nat) (expiration_date : Option Nat)
  | bad
  | ioerr
deriving DecidableEq

/-- A file on disk: its content together with its byte size
(`f.stat().st_size`). -/
structure File : Type where
  content : Content
  size : Nat
deriving DecidableEq

/-- A file name: `Path.stem` plus extension, as produced by
`'{}.{}'.format(key_hash, self.backend.file_extension)`. -/
structure FName : Type where
  stem : String
  ext : String
deriving DecidableEq

/-- Mutable state threaded through every operation: the in-memory entry
index `Bucket._cache` and the directory of files. -/
structure State : Type where
  cache : List (String × Obj)
  fs : List (FName × File)
deriving DecidableEq

/-- The empty state: fresh `Bucket` over an empty directory. -/
def emptyState : State := ⟨[], []⟩

/-- Python exceptions reachable in the embedded code.

* `keyFileNotFound`, `keyInvalid`, `keyExpiration`: the `KeyInvalidError`
  hierarchy of `exceptions.py` (`KeyFileNotFoundError` and
  `KeyExpirationError` are subclasses of `KeyInvalidError`);
* `keyError`: the public `KeyError` raised by `Bucket._get_obj`;
* `ioError`: an `IOError`/`OSError` other than "file not found" on read, or
  `Path.unlink` failing; never converted to `KeyError`;
* `nameError`: `MessagePackBackend.from_file` touching the absent `msgpack`
  module;
* `typeError`: `TypeError`, e.g. `MessagePackBackend.__init__` when the
  `msgpack` library is unavailable;
* `valueError`: `ValueError`, e.g. the mutation check in the memoization
  wrapper ("modification of input parameters ... cannot be cached", the
  spec's `NonCacheableMutation`);
* `userExn`: an exception raised by caller-supplied code inside a
  `deferred_write` block. -/
inductive Err : Type where
  | keyFileNotFound
  | keyInvalid
  | keyExpiration
  | keyError
  | ioError
  | nameError
  | typeError
  | valueError
  | userExn
deriving DecidableEq

/-- `isinstance(e, KeyInvalidError)`: the internal errors that
`Bucket._get_obj` converts into the public `KeyError`. -/
def Err.isKeyInvalid : Err → Bool
  | .keyFileNotFound => true
  | .keyInvalid => true
  | .keyExpiration => true
  | _ => false

/-- Result of a stateful operation.  Both constructors carry the state,
because side effects performed before an exception persist. -/
inductive LRes (α : Type) : Type where
  | ok (a : α) (st : State)
  | err (e : Err) (st : State)
deriving DecidableEq

/-- The state carried by an `LRes`, whichever way it went. -/
def stateOf {α : Type} : LRes α → State
  | .ok _ st => st
  | .err _ st => st

/-! ### The Bucket (`buckets.py`) -/

/-- The configuration part of a `Bucket` (everything except the mutable
`_cache` and the directory, which live in `State`).

* `kind`: the backend class (`Bucket.backend`);
* `config`: the `Config` passed to the backend (opaque);
* `keymaker`: the `KeyMaker` instance;
* `lifetime`: `Bucket._lifetime` (`None` or a `timedelta`);
* `msgpackAvailable`: whether `import msgpack` succeeded in `backends.py`;
* `md5`: the digest function behind `hashlib.md5`;
* `encSize`: byte size of a dumped entry, `len(backend.dump(obj))` — opaque
  to the core, only `prune_directory` reads sizes back. -/
structure Bucket (K : Type) : Type where
  kind : BackendKind
  config : Nat
  keymaker : KeyMaker K
  lifetime : Option Nat
  msgpackAvailable : Bool
  md5 : Digest128
  encSize : Obj → Nat

/-- Python truthiness of an optional `timedelta`: `None` and `timedelta(0)`
are falsy (`if self.lifetime:` / `if not value:`). -/
def truthy : Option Nat → Option Nat
  | some 0 => none
  | some l => some l
  | none => none

/-- `Backend.has_expired`: `datetime.utcnow() > self.expiration_date` when an
expiration date is set, `False` otherwise. -/
def hasExpired (obj : Obj) (now : Nat) : Bool :=
  match obj.expiration_date with
  | some e => decide (now > e)
  | none => false

/-- `Bucket._object_expiration_date`: `utcnow() + lifetime` when the lifetime
is truthy, else `None`. -/
def objectExpirationDate {K : Type} (b : Bucket K) (now : Nat) : Option Nat :=
  match truthy b.lifetime with
  | some l => some (now + l)
  | none => none

/-- The `lifetime_changed` test of `Bucket._get_obj_from_hash` (lines
206-218): with a truthy current lifetime, an entry with no stored expiration,
or whose stored expiration is later than `now + lifetime`, was saved under
more permissive settings. -/
def lifetimeChanged {K : Type} (b : Bucket K) (obj : Obj) (now : Nat) : Bool :=
  match truthy b.lifetime with
  | some l =>
    match obj.expiration_date with
    | none => true
    | some e => decide (e > now + l)
  | none => false

/-- Expiration policy applied on load: `obj.has_expired() or lifetime_changed`. -/
def expiredPer {K : Type} (b : Bucket K) (obj : Obj) (now : Nat) : Bool :=
  hasExpired obj now || lifetimeChanged b obj now

/-- `Bucket._path_for_hash`: `'{hash}.{extension}'` in the root directory. -/
def pathForHash {K : Type} (b : Bucket K) (keyHash : String) : FName :=
  ⟨keyHash, fileExtension b.kind⟩

/-- `Bucket._hash_for_key`: initialize MD5 with the UTF-8 encoded backend
class name, update with every chunk yielded by the key maker, render as a
hex digest. -/
def hashForKey {K : Type} (b : Bucket K) (key : K) : String :=
  ((b.keymaker.makeKey key).foldl MD5.update
    (md5Init b.md5 (utf8 (backendName b.kind)))).hexdigest

/-- `Backend.dump`: serialize `{value, expiration_date}` to the file. -/
def dumpContent (obj : Obj) : Content :=
  .good obj.value obj.expiration_date

/-- The file written for `obj` (content plus its encoded size). -/
def dumpFile {K : Type} (b : Bucket K) (obj : Obj) : File :=
  ⟨dumpContent obj, b.encSize obj⟩

/-- `Backend.from_file` (through the three concrete implementations), applied
to a file that was successfully opened.

* When the backend is `MessagePackBackend` and the `msgpack` module is
  unavailable, the module-level name `msgpack` does not exist, so the method
  raises `NameError` before reading (`backends.py` line 253);
* a read failing with a non-ENOENT I/O error propagates;
* an undecodable stream raises `BackendLoadError`;
* otherwise the entry is rebuilt.  `PickleBackend`/`JSONBackend.from_file`
  pass the bucket's config through to the constructed object;
  `MessagePackBackend.from_file` omits `config` (line 265), so the object
  gets the backend's default config. -/
def loadConfig {K : Type} (b : Bucket K) : Nat :=
  if b.kind = .msgpack then defaultConfig .msgpack else b.config

/-- See the description of `loadConfig` just above: `from_file` proper. -/
def fromFile {K : Type} (b : Bucket K) (file : File) : Except Err Obj :=
  if b.kind = .msgpack ∧ b.msgpackAvailable = false then .error .nameError
  else
    match file.content with
    | .ioerr => .error .ioError
    | .bad => .error .keyInvalid
    | .good v e => .ok ⟨v, e, loadConfig b⟩

/-- `self.backend(value, config=self.config)`: constructing a fresh backend
instance.  `MessagePackBackend.__init__` raises `TypeError` when the
`msgpack` library is unavailable (backends.py lines 237-241); otherwise the
new entry holds the value, no expiration yet, and the bucket's config. -/
def backendInit {K : Type} (b : Bucket K) (value : Nat) : Except Err Obj :=
  if b.kind = .msgpack ∧ b.msgpackAvailable = false then .error .typeError
  else .ok ⟨value, none, b.config⟩

/-- The tail of `Bucket._get_obj_from_hash` (lines 206-225): evaluate the
expiration policy on the obtained entry; when expired, unlink the file
(raising the `OSError` of `Path.unlink` if the file is gone), delete the
memory entry, and raise `KeyExpirationError`. -/
def afterLoad {K : Type} (b : Bucket K) (st : State) (keyHash : String)
    (obj : Obj) (now : Nat) : LRes Obj :=
  let filePath := pathForHash b keyHash
  if expiredPer b obj now then
    match lookupA filePath st.fs with
    | none => .err .ioError st
    | some _ =>
      .err .keyExpiration
        ⟨eraseA keyHash st.cache, eraseA filePath st.fs⟩
  else .ok obj st

/-- `Bucket._get_obj_from_hash` (lines 172-225): fetch the entry from the
memory index, else (when `load_file`) decode it from its file and populate
the index, else fail with `KeyInvalidError`; then apply the expiration
policy. -/
def getObjFromHash {K : Type} (b : Bucket K) (st : State) (keyHash : String)
    (now : Nat) (loadFile : Bool) : LRes Obj :=
  let filePath := pathForHash b keyHash
  match lookupA keyHash st.cache with
  | some obj => afterLoad b st keyHash obj now
  | none =>
    if loadFile then
      match lookupA filePath st.fs with
      | none => .err .keyFileNotFound st
      | some file =>
        match fromFile b file with
        | .error e => .err e st
        | .ok obj =>
          afterLoad b ⟨insertA keyHash obj st.cache, st.fs⟩ keyHash obj now
    else .err .keyInvalid st

/-- `Bucket._get_obj`: hash the key and convert any `KeyInvalidError` into
the public `KeyError`. -/
def getObj {K : Type} (b : Bucket K) (st : State) (key : K) (now : Nat) :
    LRes Obj :=
  match getObjFromHash b st (hashForKey b key) now true with
  | .ok obj st' => .ok obj st'
  | .err e st' => if e.isKeyInvalid then .err .keyError st' else .err e st'

/-- `Bucket.__getitem__`: return the entry's value. -/
def getItem {K : Type} (b : Bucket K) (st : State) (key : K) (now : Nat) :
    LRes Nat :=
  match getObj b st key now with
  | .ok obj st' => .ok obj.value st'
  | .err e st' => .err e st'

/-- `Bucket.__contains__`: run `self[item]` and catch `KeyError` only. -/
def containsKey {K : Type} (b : Bucket K) (st : State) (key : K) (now : Nat) :
    LRes Bool :=
  match getItem b st key now with
  | .ok _ st' => .ok true st'
  | .err .keyError st' => .ok false st'
  | .err e st' => .err e st'

/-- `Bucket._update_or_make_obj_with_hash`: reuse the in-memory entry when it
is still valid (updating its value in place), else construct a fresh backend
instance; in both cases refresh the expiration date. -/
def updateOrMakeObjWithHash {K : Type} (b : Bucket K) (st : State)
    (keyHash : String) (value : Nat) (now : Nat) : LRes Obj :=
  let step : LRes Obj :=
    match getObjFromHash b st keyHash now false with
    | .ok obj st' => .ok { obj with value := value } st'
    | .err e st' =>
      if e.isKeyInvalid then
        match backendInit b value with
        | .ok obj => .ok obj st'
        | .error e' => .err e' st'
      else .err e st'
  match step with
  | .ok obj st' =>
    .ok { obj with expiration_date := objectExpirationDate b now } st'
  | .err e st' => .err e st'

/-- `Bucket._set_obj_with_hash`: dump the entry to its file, then store it in
the memory index. -/
def setObjWithHash {K : Type} (b : Bucket K) (st : State) (keyHash : String)
    (obj : Obj) : State :=
  ⟨insertA keyHash obj st.cache,
   insertA (pathForHash b keyHash) (dumpFile b obj) st.fs⟩

/-- `Bucket.__setitem__`. -/
def setItem {K : Type} (b : Bucket K) (st : State) (key : K) (value : Nat)
    (now : Nat) : LRes Unit :=
  let keyHash := hashForKey b key
  match updateOrMakeObjWithHash b st keyHash value now with
  | .ok obj st' => .ok () (setObjWithHash b st' keyHash obj)
  | .err e st' => .err e st'

/-! ### DeferredWriteBucket and `deferred_write` (`buckets.py` 441-505)

`DeferredWriteBucket.from_bucket` copies the bucket's settings and assigns
`self._cache = bucket._cache`: the memory index is shared by reference.  In
this state-threaded model the sharing is exact — there is only one `cache`
field in `State`. -/

/-- `DeferredWriteBucket._set_obj_with_hash`: skip writing to file, only
update the shared memory index. -/
def setObjWithHashDeferred (st : State) (keyHash : String) (obj : Obj) :
    State :=
  ⟨insertA keyHash obj st.cache, st.fs⟩

/-- `DeferredWriteBucket.__setitem__` (inherited `__setitem__` dispatching to
the overridden `_set_obj_with_hash`). -/
def setItemDeferred {K : Type} (b : Bucket K) (st : State) (key : K)
    (value : Nat) (now : Nat) : LRes Unit :=
  let keyHash := hashForKey b key
  match updateOrMakeObjWithHash b st keyHash value now with
  | .ok obj st' => .ok () (setObjWithHashDeferred st' keyHash obj)
  | .err e st' => .err e st'

/-- `DeferredWriteBucket.sync`: dump every in-memory entry that has not
expired to its file. -/
def sync {K : Type} (b : Bucket K) (st : State) (now : Nat) : State :=
  ⟨st.cache,
   st.cache.foldl
     (fun fs p =>
       if hasExpired p.2 now then fs
       else insertA (pathForHash b p.1) (dumpFile b p.2) fs)
     st.fs⟩

/-- One operation performed by caller code inside a `deferred_write` block. -/
inductive ScopeOp (K : Type) : Type where
  | set (key : K) (value : Nat)

/-- Run the caller-supplied operations against the deferred bucket.  An
exception raised by an operation aborts the rest of the block. -/
def runOps {K : Type} (b : Bucket K) (st : State) (now : Nat) :
    List (ScopeOp K) → LRes Unit
  | [] => .ok () st
  | .set k v :: rest =>
    match setItemDeferred b st k v now with
    | .ok _ st' => runOps b st' now rest
    | .err e st' => .err e st'

/-- The `deferred_write` context manager.  It is a plain generator-based
`@contextmanager` with no try/finally: the body runs at the `yield`; when the
body raises, the exception is thrown at the `yield` point and the lines after
it — `sync()` and `bucket._cache.update(...)` — do not run.  On normal exit
it syncs; the merge `bucket._cache.update(deferred_write_bucket._cache)` is
the identity here because `from_bucket` aliased the two indexes. -/
def deferredWrite {K : Type} (b : Bucket K) (st : State) (now : Nat)
    (ops : List (ScopeOp K)) (bodyRaises : Bool) : LRes Unit :=
  match runOps b st now ops with
  | .err e st' => .err e st'
  | .ok _ st' =>
    if bodyRaises then .err .userExn st'
    else .ok () (sync b st' now)

/-! ### `Bucket.prune_directory` (`buckets.py` 235-278) -/

/-- The loop body of `prune_directory` over the globbed files. -/
def pruneGo {K : Type} (b : Bucket K) (now : Nat) :
    List (FName × File) → State → Nat → Nat → LRes (Nat × Nat)
  | [], st, totalsize, totalnum => .ok (totalsize, totalnum) st
  | (name, file) :: rest, st, totalsize, totalnum =>
    let filesize := file.size
    let keyHash := name.stem
    let inCache := (lookupA keyHash st.cache).isSome
    match getObjFromHash b st keyHash now true with
    | .err .keyExpiration st' =>
      pruneGo b now rest st' (totalsize + filesize) (totalnum + 1)
    | .err e st' =>
      if e.isKeyInvalid then pruneGo b now rest st' totalsize totalnum
      else .err e st'
    | .ok _ st' =>
      let st'' :=
        if inCache then st'
        else ⟨eraseA keyHash st'.cache, st'.fs⟩
      pruneGo b now rest st'' totalsize totalnum

/-- `Bucket.prune_directory`: glob `*.{extension}`, attempt a load of each
matching file, count and accumulate the sizes of those deleted through
`KeyExpirationError`, skip `KeyInvalidError`, propagate anything else;
returns `PrunedFilesInfo(size, num)`. -/
def pruneDirectory {K : Type} (b : Bucket K) (st : State) (now : Nat) :
    LRes (Nat × Nat) :=
  pruneGo b now (st.fs.filter fun p => decide (p.1.ext = fileExtension b.kind))
    st 0 0

/-! ### Bucket construction (`Bucket.__init__` and the property setters) -/

/-- `Backend.check_concrete`, called by the `backend` property setter at
construction time: verify abstract methods are overridden and the abstract
class attributes exist.  All three shipped backend classes define
`binary_format`, `default_config`, `file_extension`, `dump` and `from_file`,
so the check passes for each of them; it does not consult
`msgpack_available`. -/
def checkConcrete (kind : BackendKind) : Except Err Unit :=
  match kind with
  | .pickle => .ok ()
  | .json => .ok ()
  | .msgpack => .ok ()

/-- `Bucket.__init__` with an explicit backend class and lifetime: run the
backend setter (`check_concrete`) and the lifetime setter (negative
lifetimes are a `ValueError`; falsy lifetimes are stored as `None`).  The
input lifetime is an integer number of time units, as `timedelta` supports
negative values. -/
def mkBucket (K : Type) (kind : BackendKind) (config : Nat)
    (keymaker : KeyMaker K) (lifetimeInput : Option Int)
    (msgpackAvailable : Bool) (md5 : Digest128) (encSize : Obj → Nat) :
    Except Err (Bucket K) :=
  match checkConcrete kind with
  | .error e => .error e
  | .ok _ =>
    match lifetimeInput with
    | none =>
      .ok ⟨kind, config, keymaker, none, msgpackAvailable, md5, encSize⟩
    | some l =>
      if l < 0 then .error .valueError
      else if l = 0 then
        .ok ⟨kind, config, keymaker, none, msgpackAvailable, md5, encSize⟩
      else
        .ok ⟨kind, config, keymaker, some l.toNat, msgpackAvailable, md5,
             encSize⟩

/-! ### The memoization wrapper (`utilities.py` 101-189)

The wrapped function may mutate program state that the cache signature
depends on (its arguments, or the instance for methods).  That program state
is a value of an abstract type `S`; the wrapped call is `call : S → Nat × S`
and the signature hash — `self.bucket._hash_for_key(signature)` — is a
function of that state. -/

structure MemoCall (S : Type) : Type where
  sigHash : S → String
  call : S → Nat × S
  skipCache : Bool

/-- `load_or_call`: on cache bypass or on a `KeyInvalidError` lookup failure
call the function and cache the result (`called = True`); on a cache hit
return the cached value without calling. -/
def loadOrCall {K S : Type} (b : Bucket K) (mc : MemoCall S) (st : State)
    (s : S) (keyHash : String) (now : Nat) : LRes ((Nat × S) × Bool) :=
  let callAndCache : State → LRes ((Nat × S) × Bool) := fun st0 =>
    let res := mc.call s
    match updateOrMakeObjWithHash b st0 keyHash res.1 now with
    | .ok obj st1 => .ok ((res.1, res.2), true) (setObjWithHash b st1 keyHash obj)
    | .err e st1 => .err e st1
  if mc.skipCache then callAndCache st
  else
    match getObjFromHash b st keyHash now true with
    | .ok obj st1 => .ok ((obj.value, s), false) st1
    | .err e st1 =>
      if e.isKeyInvalid then callAndCache st1 else .err e st1

/-- The `wrapper` produced by `DecoratorFactory.decorate`: compute the
signature hash before the call; run `load_or_call`; when the function was
actually called, recompute the hash and raise `ValueError` (the spec's
`NonCacheableMutation`) if it changed. -/
def memoWrapper {K S : Type} (b : Bucket K) (mc : MemoCall S) (st : State)
    (s : S) (now : Nat) : LRes (Nat × S) :=
  let keyHash := mc.sigHash s
  match loadOrCall b mc st s keyHash now with
  | .err e st1 => .err e st1
  | .ok ((ret, s'), called) st1 =>
    if called then
      if mc.sigHash s' ≠ keyHash then .err .valueError st1
      else .ok (ret, s') st1
    else .ok (ret, s') st1

/-! ### Concrete instances used by witnesses -/

/-- A concrete executable digest below `2 ^ 128` (standing in for MD5 in
witness computations). -/
def sumDigest : Digest128 :=
  ⟨fun l => (l.foldl (· + ·) 0) % 2 ^ 128, fun l => Nat.mod_lt _ (by positivity)⟩

/-- A concrete key maker over natural-number keys. -/
def natKeyMaker : KeyMaker Nat := defaultKeyMaker (fun _ => "k")

/-- A concrete encoded-size function. -/
def unitSize : Obj → Nat := fun _ => 1

/-- A pickle-backed bucket with lifetime 10. -/
def pickle10 : Bucket Nat := ⟨.pickle, 0, natKeyMaker, some 10, true, sumDigest, unitSize⟩

/-- A pickle-backed bucket with lifetime 3 (same bucket after
`bucket.lifetime = timedelta(3)`). -/
def pickle3 : Bucket Nat := ⟨.pickle, 0, natKeyMaker, some 3, true, sumDigest, unitSize⟩

/-! ### Case-analysis lemmas for the load and store paths -/

theorem eraseA_insertA_self {κ β : Type} [DecidableEq κ] (k : κ) (v : β)
    (l : List (κ × β)) : eraseA k (insertA k v l) = eraseA k l := by
  simp [eraseA, insertA, List.filter_cons]

theorem afterLoad_valid {K : Type} (b : Bucket K) (st : State) (h : String)
    (obj : Obj) (now : Nat) (hval : expiredPer b obj now = false) :
    afterLoad b st h obj now = .ok obj st := by
  simp [afterLoad, hval]

theorem afterLoad_expired {K : Type} (b : Bucket K) (st : State) (h : String)
    (obj : Obj) (now : Nat) (file : File)
    (hexp : expiredPer b obj now = true)
    (hfile : lookupA (pathForHash b h) st.fs = some file) :
    afterLoad b st h obj now =
      .err .keyExpiration
        ⟨eraseA h st.cache, eraseA (pathForHash b h) st.fs⟩ := by
  simp [afterLoad, hexp, hfile]

theorem afterLoad_expired_nofile {K : Type} (b : Bucket K) (st : State)
    (h : String) (obj : Obj) (now : Nat)
    (hexp : expiredPer b obj now = true)
    (hfile : lookupA (pathForHash b h) st.fs = none) :
    afterLoad b st h obj now = .err .ioError st := by
  simp [afterLoad, hexp, hfile]

theorem getObjFromHash_mem {K : Type} (b : Bucket K) (st : State)
    (h : String) (now : Nat) (lf : Bool) (obj : Obj)
    (hmem : lookupA h st.cache = some obj) :
    getObjFromHash b st h now lf = afterLoad b st h obj now := by
  simp [getObjFromHash, hmem]

theorem getObjFromHash_miss_noload {K : Type} (b : Bucket K) (st : State)
    (h : String) (now : Nat) (hmem : lookupA h st.cache = none) :
    getObjFromHash b st h now false = .err .keyInvalid st := by
  simp [getObjFromHash, hmem]

theorem getObjFromHash_miss_nofile {K : Type} (b : Bucket K) (st : State)
    (h : String) (now : Nat) (hmem : lookupA h st.cache = none)
    (hfile : lookupA (pathForHash b h) st.fs = none) :
    getObjFromHash b st h now true = .err .keyFileNotFound st := by
  simp [getObjFromHash, hmem, hfile]

theorem getObjFromHash_miss_file {K : Type} (b : Bucket K) (st : State)
    (h : String) (now : Nat) (file : File)
    (hmem : lookupA h st.cache = none)
    (hfile : lookupA (pathForHash b h) st.fs = some file) :
    getObjFromHash b st h now true =
      match fromFile b file with
      | .error e => .err e st
      | .ok obj => afterLoad b ⟨insertA h obj st.cache, st.fs⟩ h obj now := by
  simp [getObjFromHash, hmem, hfile]

theorem fromFile_good {K : Type} (b : Bucket K) (v : Nat) (e : Option Nat)
    (sz : Nat) (havail : ¬(b.kind = .msgpack ∧ b.msgpackAvailable = false)) :
    fromFile b ⟨.good v e, sz⟩ = .ok ⟨v, e, loadConfig b⟩ := by
  simp [fromFile, havail]

theorem fromFile_bad {K : Type} (b : Bucket K) (sz : Nat)
    (havail : ¬(b.kind = .msgpack ∧ b.msgpackAvailable = false)) :
    fromFile b ⟨.bad, sz⟩ = .error .keyInvalid := by
  simp [fromFile, havail]

theorem fromFile_ioerr {K : Type} (b : Bucket K) (sz : Nat)
    (havail : ¬(b.kind = .msgpack ∧ b.msgpackAvailable = false)) :
    fromFile b ⟨.ioerr, sz⟩ = .error .ioError := by
  simp [fromFile, havail]

theorem backendInit_ok {K : Type} (b : Bucket K) (v : Nat)
    (havail : ¬(b.kind = .msgpack ∧ b.msgpackAvailable = false)) :
    backendInit b v = .ok ⟨v, none, b.config⟩ := by
  simp [backendInit, havail]

theorem updateOrMake_mem_valid {K : Type} (b : Bucket K) (st : State)
    (h : String) (v now : Nat) (obj0 : Obj)
    (hmem : lookupA h st.cache = some obj0)
    (hval : expiredPer b obj0 now = false) :
    updateOrMakeObjWithHash b st h v now =
      .ok ⟨v, objectExpirationDate b now, obj0.config⟩ st := by
  obtain ⟨v0, e0, c0⟩ := obj0
  simp [updateOrMakeObjWithHash, getObjFromHash_mem b st h now false _ hmem,
    afterLoad_valid b st h _ now hval]

theorem updateOrMake_mem_expired {K : Type} (b : Bucket K) (st : State)
    (h : String) (v now : Nat) (obj0 : Obj) (file : File)
    (hmem : lookupA h st.cache = some obj0)
    (hexp : expiredPer b obj0 now = true)
    (hfile : lookupA (pathForHash b h) st.fs = some file)
    (havail : ¬(b.kind = .msgpack ∧ b.msgpackAvailable = false)) :
    updateOrMakeObjWithHash b st h v now =
      .ok ⟨v, objectExpirationDate b now, b.config⟩
        ⟨eraseA h st.cache, eraseA (pathForHash b h) st.fs⟩ := by
  simp [updateOrMakeObjWithHash, getObjFromHash_mem b st h now false _ hmem,
    afterLoad_expired b st h _ now file hexp hfile, Err.isKeyInvalid,
    backendInit_ok b v havail]

theorem updateOrMake_mem_expired_nofile {K : Type} (b : Bucket K) (st : State)
    (h : String) (v now : Nat) (obj0 : Obj)
    (hmem : lookupA h st.cache = some obj0)
    (hexp : expiredPer b obj0 now = true)
    (hfile : lookupA (pathForHash b h) st.fs = none) :
    updateOrMakeObjWithHash b st h v now = .err .ioError st := by
  simp [updateOrMakeObjWithHash, getObjFromHash_mem b st h now false _ hmem,
    afterLoad_expired_nofile b st h _ now hexp hfile, Err.isKeyInvalid]

theorem updateOrMake_miss {K : Type} (b : Bucket K) (st : State)
    (h : String) (v now : Nat)
    (hmem : lookupA h st.cache = none)
    (havail : ¬(b.kind = .msgpack ∧ b.msgpackAvailable = false)) :
    updateOrMakeObjWithHash b st h v now =
      .ok ⟨v, objectExpirationDate b now, b.config⟩ st := by
  simp [updateOrMakeObjWithHash, getObjFromHash_miss_noload b st h now hmem,
    Err.isKeyInvalid, backendInit_ok b v havail]

theorem updateOrMake_miss_msgpack_unavailable {K : Type} (b : Bucket K)
    (st : State) (h : String) (v now : Nat)
    (hmem : lookupA h st.cache = none)
    (hmp : b.kind = .msgpack) (hun : b.msgpackAvailable = false) :
    updateOrMakeObjWithHash b st h v now = .err .typeError st := by
  simp [updateOrMakeObjWithHash, getObjFromHash_miss_noload b st h now hmem,
    Err.isKeyInvalid, backendInit, hmp, hun]

theorem setItem_of_update_ok {K : Type} (b : Bucket K) (st st' : State)
    (key : K) (v now : Nat) (obj : Obj)
    (hup : updateOrMakeObjWithHash b st (hashForKey b key) v now =
      .ok obj st') :
    setItem b st key v now =
      .ok () (setObjWithHash b st' (hashForKey b key) obj) := by
  simp [setItem, hup]

theorem setItem_of_update_err {K : Type} (b : Bucket K) (st st' : State)
    (key : K) (v now : Nat) (e : Err)
    (hup : updateOrMakeObjWithHash b st (hashForKey b key) v now =
      .err e st') :
    setItem b st key v now = .err e st' := by
  simp [setItem, hup]

theorem setItemDeferred_of_update_ok {K : Type} (b : Bucket K) (st st' : State)
    (key : K) (v now : Nat) (obj : Obj)
    (hup : updateOrMakeObjWithHash b st (hashForKey b key) v now =
      .ok obj st') :
    setItemDeferred b st key v now =
      .ok () (setObjWithHashDeferred st' (hashForKey b key) obj) := by
  simp [setItemDeferred, hup]

theorem setItemDeferred_of_update_err {K : Type} (b : Bucket K)
    (st st' : State) (key : K) (v now : Nat) (e : Err)
    (hup : updateOrMakeObjWithHash b st (hashForKey b key) v now =
      .err e st') :
    setItemDeferred b st key v now = .err e st' := by
  simp [setItemDeferred, hup]

theorem getItem_eq {K : Type} (b : Bucket K) (st : State) (key : K)
    (now : Nat) :
    getItem b st key now =
      match getObjFromHash b st (hashForKey b key) now true with
      | .ok obj st' => .ok obj.value st'
      | .err e st' =>
        if e.isKeyInvalid then .err .keyError st' else .err e st' := by
  unfold getItem getObj
  cases getObjFromHash b st (hashForKey b key) now true with
  | ok obj st' => simp
  | err e st' => by_cases hk : e.isKeyInvalid <;> simp [hk]

theorem truthy_pos {L : Nat} (h : 0 < L) : truthy (some L) = some L := by
  cases L with
  | zero => omega
  | succ n => rfl

/-! ### Lemmas about hashing and chunking -/

theorem md5_foldl_dig (d : Digest128) (init : List Nat)
    (chunks : List (List Nat)) :
    (chunks.foldl MD5.update (md5Init d init)).dig = d := by
  induction chunks generalizing init with
  | nil => rfl
  | cons c cs ih => exact ih (init ++ c)

theorem md5_foldl_data (d : Digest128) (init : List Nat)
    (chunks : List (List Nat)) :
    (chunks.foldl MD5.update (md5Init d init)).data = init ++ chunks.flatten := by
  induction chunks generalizing init with
  | nil => simp [md5Init]
  | cons c cs ih =>
    show ((cs.foldl MD5.update (md5Init d (init ++ c)))).data = _
    rw [ih (init ++ c)]
    simp

/-- `Bucket._hash_for_key` in closed form: the digest of
`codecName || keyBytes` rendered in fixed-width hexadecimal. -/
theorem hashForKey_eq {K : Type} (b : Bucket K) (key : K) :
    hashForKey b key =
      hexString32 (b.md5.f
        (utf8 (backendName b.kind) ++ (b.keymaker.makeKey key).flatten)) := by
  unfold hashForKey MD5.hexdigest
  rw [md5_foldl_dig, md5_foldl_data]

theorem chunksOf_flatten (n : Nat) (l : List Char) :
    (chunksOf n l).flatten = l := by
  generalize hm : l.length = m
  induction m using Nat.strong_induction_on generalizing l with
  | _ m ih =>
    cases l with
    | nil => simp [chunksOf]
    | cons c cs =>
      rw [chunksOf]
      have hlt : ((c :: cs).drop (n + 1)).length < m := by
        subst hm
        simp
        omega
      simp only [List.flatten_cons]
      rw [ih _ hlt _ rfl, List.take_append_drop]

theorem flatten_map_utf8Chars (chunks : List (List Char)) :
    (chunks.map utf8Chars).flatten = utf8Chars chunks.flatten := by
  induction chunks with
  | nil => rfl
  | cons c cs ih => simp [utf8Chars_append, ih]

/-- C7 -- For every key object, the default KeyMaker and the streaming
KeyMaker produce byte-for-byte identical key byte sequences (the
concatenation of the yielded chunks is the same byte string), so the
resulting key hash is identical under either key maker; both key makers are
pure functions of the key, so `make_key` is restartable and the hash is
stable across repeated calls. -/
theorem c7_keymakers_equal {K : Type} (b : Bucket K) (dumps : K → String)
    (key : K) :
    ((streamingDefaultKeyMaker dumps).makeKey key).flatten =
        ((defaultKeyMaker dumps).makeKey key).flatten
    ∧ hashForKey
        ⟨b.kind, b.config, streamingDefaultKeyMaker dumps, b.lifetime,
         b.msgpackAvailable, b.md5, b.encSize⟩ key =
      hashForKey
        ⟨b.kind, b.config, defaultKeyMaker dumps, b.lifetime,
         b.msgpackAvailable, b.md5, b.encSize⟩ key := by
  have hbytes : ((streamingDefaultKeyMaker dumps).makeKey key).flatten =
      ((defaultKeyMaker dumps).makeKey key).flatten := by
    show ((chunksOf 65535 (dumps key).data).map utf8Chars).flatten =
      [utf8 (dumps key)].flatten
    rw [flatten_map_utf8Chars, chunksOf_flatten]
    simp [utf8]
  refine ⟨hbytes, ?_⟩
  rw [hashForKey_eq, hashForKey_eq]
  simp only [hbytes]

/-- Backends with different classes have different file extensions (checked
over the closed set of shipped backends). -/
theorem fileExtension_injective (k1 k2 : BackendKind) (h : k1 ≠ k2) :
    fileExtension k1 ≠ fileExtension k2 := by
  cases k1 <;> cases k2 <;> simp_all [fileExtension]

/-- C9 -- The cache hash of a key is the 128-bit digest of the codec name
concatenated with the key bytes, rendered as a fixed-width (32-character)
hexadecimal string; `set` stores the entry under that same string in the
memory index and under the filename `{hash}.{extension}` on disk; buckets
with different backends have different extensions, hence never the same
file name; and the hash is a pure function of bucket configuration and key,
hence deterministic. -/
theorem c9_hash_structure {K : Type} (b b2 : Bucket K) (key : K) (st : State)
    (v now : Nat) (hk : b.kind ≠ b2.kind) :
    hashForKey b key =
      hexString32 (b.md5.f
        (utf8 (backendName b.kind) ++ (b.keymaker.makeKey key).flatten))
    ∧ (hashForKey b key).length = 32
    ∧ pathForHash b (hashForKey b key) =
        ⟨hashForKey b key, fileExtension b.kind⟩
    ∧ (∀ st', setItem b st key v now = .ok () st' →
        (lookupA (hashForKey b key) st'.cache).isSome = true
        ∧ (lookupA (pathForHash b (hashForKey b key)) st'.fs).isSome = true)
    ∧ pathForHash b (hashForKey b key) ≠ pathForHash b2 (hashForKey b2 key) := by
  refine ⟨hashForKey_eq b key, ?_, rfl, ?_, ?_⟩
  · rw [hashForKey_eq]
    exact length_hexString32 _
  · intro st' hset
    cases hup : updateOrMakeObjWithHash b st (hashForKey b key) v now with
    | ok obj st1 =>
      simp only [setItem, hup, LRes.ok.injEq] at hset
      rw [← hset.2]
      constructor
      · show (lookupA (hashForKey b key)
          (insertA (hashForKey b key) obj st1.cache)).isSome = true
        rw [lookupA_insertA_self]
        rfl
      · show (lookupA (pathForHash b (hashForKey b key))
          (insertA (pathForHash b (hashForKey b key)) (dumpFile b obj)
            st1.fs)).isSome = true
        rw [lookupA_insertA_self]
        rfl
    | err e st1 =>
      simp only [setItem, hup] at hset
      exact absurd hset (by simp)
  · intro heq
    have : fileExtension b.kind = fileExtension b2.kind :=
      congrArg FName.ext heq
    exact fileExtension_injective b.kind b2.kind hk this

/-- A json-backed bucket, used to witness codec distinctness. -/
def json10 : Bucket Nat := ⟨.json, 0, natKeyMaker, some 10, true, sumDigest, unitSize⟩

/-- Witness for C9: concrete buckets of different backends, and a concrete
successful `set`. -/
theorem c9_hash_structure_witness :
    Bucket.kind pickle10 ≠ Bucket.kind json10
    ∧ setItem pickle10 emptyState 1 5 0 =
        .ok () (stateOf (setItem pickle10 emptyState 1 5 0))
    ∧ ((lookupA (hashForKey pickle10 1)
          (stateOf (setItem pickle10 emptyState 1 5 0)).cache).isSome = true
        ∧ (lookupA (pathForHash pickle10 (hashForKey pickle10 1))
          (stateOf (setItem pickle10 emptyState 1 5 0)).fs).isSome = true) :=
  ⟨by decide, by decide,
   (c9_hash_structure pickle10 json10 1 emptyState 5 0 (by decide)).2.2.2.1
     (stateOf (setItem pickle10 emptyState 1 5 0)) (by decide)⟩

/-- C1 (amended) -- After `set(k, v)` at time `t0` under lifetime `L1`, then
changing the cache lifetime to `L2 < L1`, `get(k)` at elapsed time `e` raises
`KeyError` exactly when `e < L1 - L2` (the stored expiration exceeds
`now + L2`, the "lifetime changed" condition) or `e > L1` (ordinary
expiration); for `L1 - L2 ≤ e ≤ L1` the stored value is returned.  In the
`KeyError` case the file and the memory entry are deleted. -/
theorem c1_lifetime_shrink_window {K : Type} (b1 : Bucket K) (key : K)
    (v t0 e L1 L2 : Nat)
    (hL1 : b1.lifetime = some L1) (hpos1 : 0 < L1) (hpos2 : 0 < L2)
    (hlt : L2 < L1)
    (havail : ¬(b1.kind = .msgpack ∧ b1.msgpackAvailable = false)) :
    (e + L2 < L1 ∨ L1 < e →
      getItem
        ⟨b1.kind, b1.config, b1.keymaker, some L2, b1.msgpackAvailable,
         b1.md5, b1.encSize⟩
        (stateOf (setItem b1 emptyState key v t0)) key (t0 + e) =
        .err .keyError emptyState)
    ∧ (L1 ≤ e + L2 → e ≤ L1 →
      getItem
        ⟨b1.kind, b1.config, b1.keymaker, some L2, b1.msgpackAvailable,
         b1.md5, b1.encSize⟩
        (stateOf (setItem b1 emptyState key v t0)) key (t0 + e) =
        .ok v (stateOf (setItem b1 emptyState key v t0))) := by
  have hm : lookupA (hashForKey b1 key) emptyState.cache = none := rfl
  have hup := updateOrMake_miss b1 emptyState (hashForKey b1 key) v t0 hm havail
  have hexp1 : objectExpirationDate b1 t0 = some (t0 + L1) := by
    simp [objectExpirationDate, hL1, truthy_pos hpos1]
  rw [hexp1] at hup
  have hset := setItem_of_update_ok b1 emptyState emptyState key v t0 _ hup
  have hst1 : stateOf (setItem b1 emptyState key v t0) =
      ⟨[(hashForKey b1 key, ⟨v, some (t0 + L1), b1.config⟩)],
       [(pathForHash b1 (hashForKey b1 key),
         dumpFile b1 ⟨v, some (t0 + L1), b1.config⟩)]⟩ := by
    rw [hset]
    simp [stateOf, setObjWithHash, insertA, emptyState]
  have hh2 : hashForKey
      ⟨b1.kind, b1.config, b1.keymaker, some L2, b1.msgpackAvailable,
       b1.md5, b1.encSize⟩ key = hashForKey b1 key := rfl
  have hp2 : pathForHash
      (⟨b1.kind, b1.config, b1.keymaker, some L2, b1.msgpackAvailable,
        b1.md5, b1.encSize⟩ : Bucket K) (hashForKey b1 key) =
      pathForHash b1 (hashForKey b1 key) := rfl
  have hmem1 : lookupA (hashForKey b1 key)
      (stateOf (setItem b1 emptyState key v t0)).cache =
      some ⟨v, some (t0 + L1), b1.config⟩ := by
    rw [hst1]
    simp [lookupA]
  have hfile1 : lookupA (pathForHash b1 (hashForKey b1 key))
      (stateOf (setItem b1 emptyState key v t0)).fs =
      some (dumpFile b1 ⟨v, some (t0 + L1), b1.config⟩) := by
    rw [hst1]
    simp [lookupA]
  constructor
  · intro hcond
    have hexp2 : expiredPer
        (⟨b1.kind, b1.config, b1.keymaker, some L2, b1.msgpackAvailable,
          b1.md5, b1.encSize⟩ : Bucket K)
        ⟨v, some (t0 + L1), b1.config⟩ (t0 + e) = true := by
      simp [expiredPer, hasExpired, lifetimeChanged, truthy_pos hpos2]
      omega
    rw [getItem_eq, hh2,
      getObjFromHash_mem _ _ _ _ _ _ hmem1,
      afterLoad_expired _ _ _ _ _ _ hexp2 (by rw [hp2]; exact hfile1)]
    have hzero : (⟨eraseA (hashForKey b1 key)
        (stateOf (setItem b1 emptyState key v t0)).cache,
        eraseA (pathForHash
          (⟨b1.kind, b1.config, b1.keymaker, some L2, b1.msgpackAvailable,
            b1.md5, b1.encSize⟩ : Bucket K) (hashForKey b1 key))
          (stateOf (setItem b1 emptyState key v t0)).fs⟩ : State) =
        emptyState := by
      rw [hp2, hst1]
      simp [eraseA, emptyState]
    rw [hzero]
    rfl
  · intro h1 h2
    have hexp2 : expiredPer
        (⟨b1.kind, b1.config, b1.keymaker, some L2, b1.msgpackAvailable,
          b1.md5, b1.encSize⟩ : Bucket K)
        ⟨v, some (t0 + L1), b1.config⟩ (t0 + e) = false := by
      simp [expiredPer, hasExpired, lifetimeChanged, truthy_pos hpos2]
      omega
    rw [getItem_eq, hh2,
      getObjFromHash_mem _ _ _ _ _ _ hmem1,
      afterLoad_valid _ _ _ _ _ hexp2]

/-- Witness for C1 (amended), at `L1 = 10`, `L2 = 3`, elapsed time 2
(`2 < 10 - 3`): `get` raises `KeyError`. -/
theorem c1_lifetime_shrink_window_witness :
    (Bucket.lifetime pickle10 = some 10 ∧ 0 < 10 ∧ 0 < 3 ∧ 3 < 10
      ∧ (2 + 3 < 10 ∨ 10 < 2))
    ∧ getItem pickle3 (stateOf (setItem pickle10 emptyState 1 5 0)) 1 (0 + 2) =
        .err .keyError emptyState :=
  ⟨⟨rfl, by decide, by decide, by decide, by decide⟩,
   (c1_lifetime_shrink_window pickle10 1 5 0 2 10 3 rfl (by decide) (by decide)
     (by decide) (by decide)).1 (by decide)⟩

/-- C1 is false as stated: with `L1 = 10`, `L2 = 3`, at elapsed time `8 < L1`
the entry is returned rather than raising `KeyError` (the "lifetime changed"
test compares the stored expiration `t0 + L1` against `now + L2`, which only
fires for elapsed times below `L1 - L2`). -/
theorem c1_counterexample :
    (8 : Nat) < 10 ∧
    getItem pickle3 (stateOf (setItem pickle10 emptyState 1 5 0)) 1 (0 + 8) =
      .ok 5 (stateOf (setItem pickle10 emptyState 1 5 0)) := by
  exact ⟨by decide, by decide⟩

/-- A MessagePack-backed bucket whose optional `msgpack` dependency is
unavailable. -/
def msgpackNA : Bucket Nat := ⟨.msgpack, 0, natKeyMaker, none, false, sumDigest, unitSize⟩

/-- C5 (amended) -- Constructing a Bucket with the MessagePack backend while
the msgpack library is unavailable succeeds (`check_concrete` verifies only
that the class is concrete); the `TypeError` configuration failure instead
surfaces at the first operation that constructs a backend instance, such as
the first `set` of a key with no in-memory entry. -/
theorem c5_construction_succeeds_failure_deferred {K : Type} (config : Nat)
    (km : KeyMaker K) (dig : Digest128) (es : Obj → Nat) (st : State)
    (key : K) (v now : Nat)
    (hmem : lookupA
      (hashForKey ⟨.msgpack, config, km, none, false, dig, es⟩ key)
      st.cache = none) :
    mkBucket K .msgpack config km none false dig es =
      .ok ⟨.msgpack, config, km, none, false, dig, es⟩
    ∧ setItem ⟨.msgpack, config, km, none, false, dig, es⟩ st key v now =
        .err .typeError st := by
  refine ⟨rfl, ?_⟩
  exact setItem_of_update_err _ st st key v now .typeError
    (updateOrMake_miss_msgpack_unavailable _ st _ v now hmem rfl rfl)

/-- Witness for C5 (amended) at a concrete bucket and key. -/
theorem c5_construction_succeeds_failure_deferred_witness :
    lookupA (hashForKey msgpackNA 1) emptyState.cache = none
    ∧ (mkBucket Nat .msgpack 0 natKeyMaker none false sumDigest unitSize =
        .ok msgpackNA
      ∧ setItem msgpackNA emptyState 1 5 0 = .err .typeError emptyState) :=
  ⟨rfl,
   c5_construction_succeeds_failure_deferred 0 natKeyMaker sumDigest unitSize
     emptyState 1 5 0 rfl⟩

/-- C5 is false as stated: Bucket construction with the MessagePack backend
and the msgpack library unavailable does not fail — no configuration error
is raised at construction time. -/
theorem c5_counterexample :
    mkBucket Nat .msgpack 0 natKeyMaker none false sumDigest unitSize =
      .ok msgpackNA := rfl

/-! ### Lemmas for sync, deferred writes and prune -/

theorem lookupA_eraseA_sub {κ β : Type} [DecidableEq κ] {k nm : κ} {f : β}
    {l : List (κ × β)} (h : lookupA nm (eraseA k l) = some f) :
    lookupA nm l = some f := by
  by_cases hnk : nm = k
  · subst hnk
    rw [lookupA_eraseA_self] at h
    cases h
  · rwa [lookupA_eraseA_ne l hnk] at h

theorem pathForHash_inj {K : Type} (b : Bucket K) {h h' : String}
    (heq : pathForHash b h = pathForHash b h') : h = h' :=
  congrArg FName.stem heq

theorem sync_foldl_notmem {K : Type} (b : Bucket K) (now : Nat)
    (c : List (String × Obj)) :
    ∀ (fs : List (FName × File)) (h : String), h ∉ c.map Prod.fst →
      lookupA (pathForHash b h)
        (c.foldl (fun fs p => if hasExpired p.2 now then fs
          else insertA (pathForHash b p.1) (dumpFile b p.2) fs) fs) =
      lookupA (pathForHash b h) fs := by
  induction c with
  | nil => intro fs h _; rfl
  | cons p ps ih =>
    intro fs h hmem
    simp only [List.map_cons, List.mem_cons] at hmem
    push_neg at hmem
    rw [List.foldl_cons]
    by_cases hex : hasExpired p.2 now = true
    · rw [hex]
      exact ih fs h hmem.2
    · rw [Bool.not_eq_true] at hex
      rw [hex]
      simp only [Bool.false_eq_true, if_false]
      rw [ih _ h hmem.2]
      exact lookupA_insertA_ne _ fs
        (fun hc => hmem.1 (pathForHash_inj b hc))

theorem sync_foldl_lookup {K : Type} (b : Bucket K) (now : Nat)
    (c : List (String × Obj)) :
    ∀ (fs : List (FName × File)) (h : String) (obj : Obj),
      (c.map Prod.fst).Nodup → lookupA h c = some obj →
      hasExpired obj now = false →
      lookupA (pathForHash b h)
        (c.foldl (fun fs p => if hasExpired p.2 now then fs
          else insertA (pathForHash b p.1) (dumpFile b p.2) fs) fs) =
      some (dumpFile b obj) := by
  induction c with
  | nil => intro fs h obj _ hl; simp [lookupA] at hl
  | cons p ps ih =>
    intro fs h obj hnd hl hexp
    simp only [List.map_cons, List.nodup_cons] at hnd
    rw [List.foldl_cons]
    by_cases hph : p.1 = h
    · have hobj : p.2 = obj := by
        simp [lookupA, hph] at hl
        exact hl
      subst hph
      rw [hobj, hexp]
      simp only [Bool.false_eq_true, if_false]
      rw [sync_foldl_notmem b now ps _ p.1 hnd.1]
      exact lookupA_insertA_self _ _ fs
    · have hl2 : lookupA h ps = some obj := by
        simpa [lookupA, hph] using hl
      by_cases hex : hasExpired p.2 now = true
      · rw [hex]
        exact ih fs h obj hnd.2 hl2 hexp
      · rw [Bool.not_eq_true] at hex
        rw [hex]
        simp only [Bool.false_eq_true, if_false]
        exact ih _ h obj hnd.2 hl2 hexp

/-- `sync` writes the dump of every currently non-expired in-memory entry to
its file. -/
theorem sync_persists {K : Type} (b : Bucket K) (st : State) (now : Nat)
    (hnd : (st.cache.map Prod.fst).Nodup) (h : String) (obj : Obj)
    (hmem : lookupA h st.cache = some obj)
    (hexp : hasExpired obj now = false) :
    lookupA (pathForHash b h) (sync b st now).fs = some (dumpFile b obj) :=
  sync_foldl_lookup b now st.cache st.fs h obj hnd hmem hexp

theorem getObjFromHash_noload_fs_cases {K : Type} (b : Bucket K) (st : State)
    (h : String) (now : Nat) :
    (stateOf (getObjFromHash b st h now false)).fs = st.fs ∨
    (stateOf (getObjFromHash b st h now false)).fs =
      eraseA (pathForHash b h) st.fs := by
  cases hc : lookupA h st.cache with
  | none =>
    left
    rw [getObjFromHash_miss_noload b st h now hc]
    rfl
  | some obj =>
    rw [getObjFromHash_mem b st h now false obj hc]
    by_cases hexp : expiredPer b obj now = true
    · cases hf : lookupA (pathForHash b h) st.fs with
      | none =>
        left
        rw [afterLoad_expired_nofile b st h obj now hexp hf]
        rfl
      | some file =>
        right
        rw [afterLoad_expired b st h obj now file hexp hf]
        rfl
    · left
      rw [Bool.not_eq_true] at hexp
      rw [afterLoad_valid b st h obj now hexp]
      rfl

theorem updateOrMake_state {K : Type} (b : Bucket K) (st : State) (h : String)
    (v now : Nat) :
    stateOf (updateOrMakeObjWithHash b st h v now) =
      stateOf (getObjFromHash b st h now false) := by
  unfold updateOrMakeObjWithHash
  cases getObjFromHash b st h now false with
  | ok obj st1 => rfl
  | err e st1 =>
    by_cases hk : e.isKeyInvalid <;>
      cases hbi : backendInit b v <;>
      simp [stateOf, hk, hbi]

theorem setItemDeferred_fs_sub {K : Type} (b : Bucket K) (st : State)
    (key : K) (v now : Nat) (st' : State)
    (hok : setItemDeferred b st key v now = .ok () st') :
    ∀ nm f, lookupA nm st'.fs = some f → lookupA nm st.fs = some f := by
  intro nm f hl
  cases hup : updateOrMakeObjWithHash b st (hashForKey b key) v now with
  | err e st1 =>
    rw [setItemDeferred_of_update_err b st st1 key v now e hup] at hok
    exact absurd hok (by simp)
  | ok obj st1 =>
    rw [setItemDeferred_of_update_ok b st st1 key v now obj hup] at hok
    have hst' : st' = setObjWithHashDeferred st1 (hashForKey b key) obj := by
      injection hok with h1 h2
      exact h2.symm
    have hfs : st'.fs = st1.fs := by rw [hst']; rfl
    have hst1 : st1.fs = (stateOf (getObjFromHash b st (hashForKey b key) now
        false)).fs := by
      rw [← updateOrMake_state b st (hashForKey b key) v now, hup]
      rfl
    rcases getObjFromHash_noload_fs_cases b st (hashForKey b key) now with
      hcase | hcase
    · rw [hfs, hst1, hcase] at hl
      exact hl
    · rw [hfs, hst1, hcase] at hl
      exact lookupA_eraseA_sub hl

theorem runOps_fs_sub {K : Type} (b : Bucket K) (now : Nat)
    (ops : List (ScopeOp K)) :
    ∀ (st st' : State), runOps b st now ops = .ok () st' →
      ∀ nm f, lookupA nm st'.fs = some f → lookupA nm st.fs = some f := by
  induction ops with
  | nil =>
    intro st st' hok nm f hl
    simp only [runOps, LRes.ok.injEq] at hok
    rw [hok.2]
    exact hl
  | cons op rest ih =>
    obtain ⟨k, v⟩ := op
    intro st st' hok nm f hl
    cases hs : setItemDeferred b st k v now with
    | ok u st1 =>
      cases u
      simp only [runOps, hs] at hok
      exact setItemDeferred_fs_sub b st k v now st1 hs nm f
        (ih st1 st' hok nm f hl)
    | err e st1 =>
      simp only [runOps, hs] at hok
      exact absurd hok (by simp)

theorem deferredWrite_normal {K : Type} (b : Bucket K) (st : State)
    (now : Nat) (ops : List (ScopeOp K)) (st' : State)
    (hrun : runOps b st now ops = .ok () st') :
    deferredWrite b st now ops false = .ok () (sync b st' now) := by
  simp [deferredWrite, hrun]

theorem deferredWrite_raises {K : Type} (b : Bucket K) (st : State)
    (now : Nat) (ops : List (ScopeOp K)) (st' : State)
    (hrun : runOps b st now ops = .ok () st') :
    deferredWrite b st now ops true = .err .userExn st' := by
  simp [deferredWrite, hrun]

/-- C2 (amended) -- On normal exit of a `deferred_write` scope, `sync()` runs:
every non-expired entry of the (shared) memory index is persisted to its
file, and the index — aliased between the deferred bucket and the original
bucket — holds all writes made in the scope.  When the caller-supplied block
raises, however, the generator-based context manager has no try/finally, so
the exception propagates without `sync()` or the merge: no file is created
on disk (the directory only ever shrank during the scope), although the
in-memory writes remain visible through the shared index. -/
theorem c2_deferred_write_sync {K : Type} (b : Bucket K) (st : State)
    (now : Nat) (ops : List (ScopeOp K)) (st' : State)
    (hrun : runOps b st now ops = .ok () st')
    (hnd : (st'.cache.map Prod.fst).Nodup) :
    (deferredWrite b st now ops false = .ok () (sync b st' now)
      ∧ (sync b st' now).cache = st'.cache
      ∧ ∀ h obj, lookupA h st'.cache = some obj →
          hasExpired obj now = false →
          lookupA (pathForHash b h) (sync b st' now).fs =
            some (dumpFile b obj))
    ∧ (deferredWrite b st now ops true = .err .userExn st'
      ∧ ∀ nm f, lookupA nm st'.fs = some f → lookupA nm st.fs = some f) := by
  refine ⟨⟨deferredWrite_normal b st now ops st' hrun, rfl, ?_⟩,
    deferredWrite_raises b st now ops st' hrun,
    runOps_fs_sub b now ops st st' hrun⟩
  intro h obj hmem hexp
  exact sync_persists b st' now hnd h obj hmem hexp

/-- Witness for C2 (amended): one deferred `set` on an empty state; on
normal exit the file is on disk. -/
theorem c2_deferred_write_sync_witness :
    (runOps pickle10 emptyState 0 [ScopeOp.set 1 5] =
        .ok () (stateOf (runOps pickle10 emptyState 0 [ScopeOp.set 1 5]))
      ∧ ((stateOf (runOps pickle10 emptyState 0 [ScopeOp.set 1 5])).cache.map
          Prod.fst).Nodup)
    ∧ deferredWrite pickle10 emptyState 0 [ScopeOp.set 1 5] false =
        .ok () (sync pickle10
          (stateOf (runOps pickle10 emptyState 0 [ScopeOp.set 1 5])) 0) :=
  ⟨⟨by decide, by decide⟩,
   (c2_deferred_write_sync pickle10 emptyState 0 [ScopeOp.set 1 5]
     (stateOf (runOps pickle10 emptyState 0 [ScopeOp.set 1 5]))
     (by decide) (by decide)).1.1⟩

/-- C2 is false as stated: when the block raises, `deferred_write` does not
sync before the exception propagates — the write made inside the scope is
present in the shared memory index but its file was never created. -/
theorem c2_counterexample :
    deferredWrite pickle10 emptyState 0 [ScopeOp.set 1 5] true =
      .err .userExn
        ⟨[(hashForKey pickle10 1, ⟨5, some 10, 0⟩)], []⟩
    ∧ lookupA (pathForHash pickle10 (hashForKey pickle10 1))
        (stateOf (deferredWrite pickle10 emptyState 0 [ScopeOp.set 1 5]
          true)).fs = none
    ∧ lookupA (hashForKey pickle10 1)
        (stateOf (deferredWrite pickle10 emptyState 0 [ScopeOp.set 1 5]
          true)).cache = some ⟨5, some 10, 0⟩ := by
  exact ⟨by decide, by decide, by decide⟩

/-- The concrete state used for the C4 witness and counterexample: one
in-memory entry (config 7) whose expiration has passed, with its backing
file on disk. -/
def stExpired : State :=
  ⟨[(hashForKey pickle10 1, ⟨5, some 10, 7⟩)],
   [(pathForHash pickle10 (hashForKey pickle10 1), ⟨.good 5 (some 10), 3⟩)]⟩

/-- C4 (amended) -- `set(k, v)` updates the in-memory entry in place — value
replaced, expiration refreshed to write time plus lifetime, config preserved
— only when the entry is valid under the current expiration policy; with no
in-memory entry it constructs a fresh entry carrying the cache's codec
configuration; an expired (or lifetime-invalidated) in-memory entry is
discarded and its backing file deleted, even by the otherwise file-free
`DeferredWriteBucket.set`; `Bucket.set` writes through to disk immediately
while the deferred variant leaves the directory untouched apart from that
deletion; `sync()` persists every currently non-expired in-memory entry. -/
theorem c4_set_semantics {K : Type} (b : Bucket K) (st : State) (key : K)
    (v now : Nat) (obj0 : Obj) (file : File)
    (havail : ¬(b.kind = .msgpack ∧ b.msgpackAvailable = false)) :
    (lookupA (hashForKey b key) st.cache = some obj0 →
      expiredPer b obj0 now = false →
      setItem b st key v now = .ok ()
        ⟨insertA (hashForKey b key)
           ⟨v, objectExpirationDate b now, obj0.config⟩ st.cache,
         insertA (pathForHash b (hashForKey b key))
           (dumpFile b ⟨v, objectExpirationDate b now, obj0.config⟩) st.fs⟩
      ∧ setItemDeferred b st key v now = .ok ()
          ⟨insertA (hashForKey b key)
             ⟨v, objectExpirationDate b now, obj0.config⟩ st.cache,
           st.fs⟩)
    ∧ (lookupA (hashForKey b key) st.cache = none →
      setItem b st key v now = .ok ()
        ⟨insertA (hashForKey b key)
           ⟨v, objectExpirationDate b now, b.config⟩ st.cache,
         insertA (pathForHash b (hashForKey b key))
           (dumpFile b ⟨v, objectExpirationDate b now, b.config⟩) st.fs⟩)
    ∧ (lookupA (hashForKey b key) st.cache = some obj0 →
      expiredPer b obj0 now = true →
      lookupA (pathForHash b (hashForKey b key)) st.fs = some file →
      setItemDeferred b st key v now = .ok ()
        ⟨insertA (hashForKey b key)
           ⟨v, objectExpirationDate b now, b.config⟩
           (eraseA (hashForKey b key) st.cache),
         eraseA (pathForHash b (hashForKey b key)) st.fs⟩
      ∧ lookupA (pathForHash b (hashForKey b key))
          (stateOf (setItemDeferred b st key v now)).fs = none)
    ∧ ((st.cache.map Prod.fst).Nodup →
      ∀ h obj, lookupA h st.cache = some obj → hasExpired obj now = false →
        lookupA (pathForHash b h) (sync b st now).fs =
          some (dumpFile b obj)) := by
  refine ⟨?_, ?_, ?_, ?_⟩
  · intro hmem hval
    have hup := updateOrMake_mem_valid b st (hashForKey b key) v now obj0
      hmem hval
    exact ⟨setItem_of_update_ok b st st key v now _ hup,
      setItemDeferred_of_update_ok b st st key v now _ hup⟩
  · intro hmem
    have hup := updateOrMake_miss b st (hashForKey b key) v now hmem havail
    exact setItem_of_update_ok b st st key v now _ hup
  · intro hmem hexp hfile
    have hup := updateOrMake_mem_expired b st (hashForKey b key) v now obj0
      file hmem hexp hfile havail
    have hdef := setItemDeferred_of_update_ok b st _ key v now _ hup
    refine ⟨hdef, ?_⟩
    rw [hdef]
    show lookupA (pathForHash b (hashForKey b key))
      (eraseA (pathForHash b (hashForKey b key)) st.fs) = none
    exact lookupA_eraseA_self _ _
  · intro hnd h obj hmem hexp
    exact sync_persists b st now hnd h obj hmem hexp

/-- Witness for C4 (amended): the expired-entry branch at a concrete state. -/
theorem c4_set_semantics_witness :
    (lookupA (hashForKey pickle10 1) stExpired.cache = some ⟨5, some 10, 7⟩
      ∧ expiredPer pickle10 ⟨5, some 10, 7⟩ 100 = true
      ∧ lookupA (pathForHash pickle10 (hashForKey pickle10 1)) stExpired.fs =
          some ⟨.good 5 (some 10), 3⟩)
    ∧ (setItemDeferred pickle10 stExpired 1 9 100 = .ok ()
        ⟨insertA (hashForKey pickle10 1)
           ⟨9, objectExpirationDate pickle10 100, 0⟩
           (eraseA (hashForKey pickle10 1) stExpired.cache),
         eraseA (pathForHash pickle10 (hashForKey pickle10 1)) stExpired.fs⟩
      ∧ lookupA (pathForHash pickle10 (hashForKey pickle10 1))
          (stateOf (setItemDeferred pickle10 stExpired 1 9 100)).fs = none) :=
  ⟨⟨by decide, by decide, by decide⟩,
   (c4_set_semantics pickle10 stExpired 1 9 100 ⟨5, some 10, 7⟩
     ⟨.good 5 (some 10), 3⟩ (by decide)).2.2.1
     (by decide) (by decide) (by decide)⟩

/-- C4 is false as stated: with an expired in-memory entry, `set` on a
DeferredWriteBucket deletes the entry's backing file (so it does touch a
file), and the resulting entry is a fresh construction carrying the bucket's
config 0 rather than an in-place update of the stored entry's config 7. -/
theorem c4_counterexample :
    (lookupA (pathForHash pickle10 (hashForKey pickle10 1))
      stExpired.fs).isSome = true
    ∧ lookupA (pathForHash pickle10 (hashForKey pickle10 1))
        (stateOf (setItemDeferred pickle10 stExpired 1 9 100)).fs = none
    ∧ lookupA (hashForKey pickle10 1)
        (stateOf (setItemDeferred pickle10 stExpired 1 9 100)).cache =
        some ⟨9, some 110, 0⟩ := by
  exact ⟨by decide, by decide, by decide⟩

/-! ### The resolution of a key and the mem-backed invariant (for the
`get`/`__contains__` characterizations) -/

/-- The file stored for a key hash, if any. -/
def fileFor {K : Type} (b : Bucket K) (st : State) (h : String) :
    Option File :=
  lookupA (pathForHash b h) st.fs

/-- The entry a `get` of hash `h` resolves before expiration checking: the
in-memory entry when present, else the decoded file. -/
def resolvedEntry {K : Type} (b : Bucket K) (st : State) (h : String) :
    Option Obj :=
  match lookupA h st.cache with
  | some obj => some obj
  | none =>
    match fileFor b st h with
    | some file =>
      match fromFile b file with
      | .ok obj => some obj
      | .error _ => none
    | none => none

/-- The invariant `Bucket`'s own operations maintain: every in-memory entry
has a backing file holding its dump (decidable, for use in witnesses). -/
def memBacked {K : Type} (b : Bucket K) (st : State) : Bool :=
  st.cache.all fun p =>
    match lookupA (pathForHash b p.1) st.fs with
    | some file =>
      decide (file.content = Content.good p.2.value p.2.expiration_date)
    | none => false

theorem memBacked_spec {K : Type} {b : Bucket K} {st : State}
    (hinv : memBacked b st = true) {h : String} {obj : Obj}
    (hmem : lookupA h st.cache = some obj) :
    lookupA (pathForHash b h) st.fs =
      some ⟨.good obj.value obj.expiration_date,
        (lookupA (pathForHash b h) st.fs).elim 0 File.size⟩ := by
  have hm := lookupA_mem hmem
  rw [memBacked, List.all_eq_true] at hinv
  have hthis := hinv (h, obj) hm
  cases hf : lookupA (pathForHash b h) st.fs with
  | none =>
    rw [hf] at hthis
    cases hthis
  | some file =>
    rw [hf] at hthis
    rw [decide_eq_true_iff] at hthis
    cases file
    simp_all

theorem getObjFromHash_mem_valid {K : Type} (b : Bucket K) (st : State)
    (h : String) (now : Nat) (lf : Bool) (obj : Obj)
    (hmem : lookupA h st.cache = some obj)
    (hval : expiredPer b obj now = false) :
    getObjFromHash b st h now lf = .ok obj st := by
  rw [getObjFromHash_mem b st h now lf obj hmem,
    afterLoad_valid b st h obj now hval]

theorem getObjFromHash_mem_expired {K : Type} (b : Bucket K) (st : State)
    (h : String) (now : Nat) (lf : Bool) (obj : Obj) (file : File)
    (hmem : lookupA h st.cache = some obj)
    (hexp : expiredPer b obj now = true)
    (hfile : lookupA (pathForHash b h) st.fs = some file) :
    getObjFromHash b st h now lf =
      .err .keyExpiration
        ⟨eraseA h st.cache, eraseA (pathForHash b h) st.fs⟩ := by
  rw [getObjFromHash_mem b st h now lf obj hmem,
    afterLoad_expired b st h obj now file hexp hfile]

theorem getObjFromHash_file_bad {K : Type} (b : Bucket K) (st : State)
    (h : String) (now : Nat) (sz : Nat)
    (hmem : lookupA h st.cache = none)
    (hfile : lookupA (pathForHash b h) st.fs = some ⟨.bad, sz⟩)
    (havail : ¬(b.kind = .msgpack ∧ b.msgpackAvailable = false)) :
    getObjFromHash b st h now true = .err .keyInvalid st := by
  rw [getObjFromHash_miss_file b st h now _ hmem hfile,
    fromFile_bad b sz havail]

theorem getObjFromHash_file_ioerr {K : Type} (b : Bucket K) (st : State)
    (h : String) (now : Nat) (sz : Nat)
    (hmem : lookupA h st.cache = none)
    (hfile : lookupA (pathForHash b h) st.fs = some ⟨.ioerr, sz⟩)
    (havail : ¬(b.kind = .msgpack ∧ b.msgpackAvailable = false)) :
    getObjFromHash b st h now true = .err .ioError st := by
  rw [getObjFromHash_miss_file b st h now _ hmem hfile,
    fromFile_ioerr b sz havail]

theorem getObjFromHash_file_good_valid {K : Type} (b : Bucket K) (st : State)
    (h : String) (now : Nat) (v : Nat) (e : Option Nat) (sz : Nat)
    (hmem : lookupA h st.cache = none)
    (hfile : lookupA (pathForHash b h) st.fs = some ⟨.good v e, sz⟩)
    (havail : ¬(b.kind = .msgpack ∧ b.msgpackAvailable = false))
    (hval : expiredPer b ⟨v, e, loadConfig b⟩ now = false) :
    getObjFromHash b st h now true =
      .ok ⟨v, e, loadConfig b⟩
        ⟨insertA h ⟨v, e, loadConfig b⟩ st.cache, st.fs⟩ := by
  rw [getObjFromHash_miss_file b st h now _ hmem hfile,
    fromFile_good b v e sz havail]
  exact afterLoad_valid b _ h _ now hval

theorem getObjFromHash_file_good_expired {K : Type} (b : Bucket K)
    (st : State) (h : String) (now : Nat) (v : Nat) (e : Option Nat)
    (sz : Nat)
    (hmem : lookupA h st.cache = none)
    (hfile : lookupA (pathForHash b h) st.fs = some ⟨.good v e, sz⟩)
    (havail : ¬(b.kind = .msgpack ∧ b.msgpackAvailable = false))
    (hexp : expiredPer b ⟨v, e, loadConfig b⟩ now = true) :
    getObjFromHash b st h now true =
      .err .keyExpiration
        ⟨eraseA h st.cache, eraseA (pathForHash b h) st.fs⟩ := by
  rw [getObjFromHash_miss_file b st h now _ hmem hfile,
    fromFile_good b v e sz havail]
  show afterLoad b ⟨insertA h ⟨v, e, loadConfig b⟩ st.cache, st.fs⟩ h
    ⟨v, e, loadConfig b⟩ now = _
  rw [afterLoad_expired b ⟨insertA h ⟨v, e, loadConfig b⟩ st.cache, st.fs⟩ h
    ⟨v, e, loadConfig b⟩ now ⟨.good v e, sz⟩ hexp hfile]
  show LRes.err Err.keyExpiration
    ⟨eraseA h (insertA h ⟨v, e, loadConfig b⟩ st.cache),
     eraseA (pathForHash b h) st.fs⟩ = _
  rw [eraseA_insertA_self]

theorem getItem_of_getObj_ok {K : Type} {b : Bucket K} {st st' : State}
    {key : K} {now : Nat} {obj : Obj}
    (hg : getObjFromHash b st (hashForKey b key) now true = .ok obj st') :
    getItem b st key now = .ok obj.value st' := by
  rw [getItem_eq, hg]

theorem getItem_of_getObj_invalid {K : Type} {b : Bucket K} {st st' : State}
    {key : K} {now : Nat} {e : Err}
    (hg : getObjFromHash b st (hashForKey b key) now true = .err e st')
    (hk : e.isKeyInvalid = true) :
    getItem b st key now = .err .keyError st' := by
  rw [getItem_eq, hg]
  simp [hk]

theorem getItem_of_getObj_other {K : Type} {b : Bucket K} {st st' : State}
    {key : K} {now : Nat} {e : Err}
    (hg : getObjFromHash b st (hashForKey b key) now true = .err e st')
    (hk : e.isKeyInvalid = false) :
    getItem b st key now = .err e st' := by
  rw [getItem_eq, hg]
  simp [hk]

/-- Expired entries are deleted from disk and memory before the `KeyError`
surfaces, whether the entry came from memory or from its file. -/
theorem getItem_expired_deletes {K : Type} (b : Bucket K) (st : State)
    (key : K) (now : Nat)
    (hinv : memBacked b st = true)
    (havail : ¬(b.kind = .msgpack ∧ b.msgpackAvailable = false))
    (obj : Obj)
    (hres : resolvedEntry b st (hashForKey b key) = some obj)
    (hexp : expiredPer b obj now = true) :
    getItem b st key now = .err .keyError
      ⟨eraseA (hashForKey b key) st.cache,
       eraseA (pathForHash b (hashForKey b key)) st.fs⟩ := by
  cases hmem : lookupA (hashForKey b key) st.cache with
  | some obj0 =>
    have hobj : obj0 = obj := by
      simp [resolvedEntry, hmem] at hres
      exact hres
    subst hobj
    have hfile := memBacked_spec hinv hmem
    exact getItem_of_getObj_invalid
      (getObjFromHash_mem_expired b st _ now true obj0 _ hmem hexp hfile) rfl
  | none =>
    simp only [resolvedEntry, hmem] at hres
    cases hfile : fileFor b st (hashForKey b key) with
    | none => simp [hfile] at hres
    | some file =>
      simp only [hfile] at hres
      cases hff : fromFile b file with
      | error e => simp [hff] at hres
      | ok obj1 =>
        simp only [hff, Option.some.injEq] at hres
        subst hres
        obtain ⟨v, e0, hc, ho⟩ : ∃ v e0, file.content = .good v e0
            ∧ obj1 = ⟨v, e0, loadConfig b⟩ := by
          rw [fromFile, if_neg havail] at hff
          cases file with
          | mk content sz =>
            cases content with
            | good v e0 =>
              simp at hff
              exact ⟨v, e0, rfl, hff.symm⟩
            | bad => simp at hff
            | ioerr => simp at hff
        have hfile2 : lookupA (pathForHash b (hashForKey b key)) st.fs =
            some ⟨.good v e0, file.size⟩ := by
          rw [show (⟨.good v e0, file.size⟩ : File) = file from by
            cases file
            simp_all]
          exact hfile
        rw [ho] at hexp
        exact getItem_of_getObj_invalid
          (getObjFromHash_file_good_expired b st _ now v e0 file.size hmem
            hfile2 havail hexp) rfl

/-- C3 -- `get(k)` raises `KeyError` exactly when no file exists for `k`'s
hash (and the entry is not cached), or the file exists but fails to decode,
or the entry `get` resolves is expired; in the expired case the file and the
memory entry are deleted before the `KeyError`; a read failing with an I/O
error other than file-not-found propagates unchanged instead of becoming
`KeyError`. -/
theorem c3_getItem_keyError {K : Type} (b : Bucket K) (st : State) (key : K)
    (now : Nat)
    (hinv : memBacked b st = true)
    (havail : ¬(b.kind = .msgpack ∧ b.msgpackAvailable = false)) :
    ((∃ st', getItem b st key now = .err .keyError st') ↔
      (fileFor b st (hashForKey b key) = none
        ∨ (∃ sz, fileFor b st (hashForKey b key) = some ⟨.bad, sz⟩)
        ∨ (∃ obj, resolvedEntry b st (hashForKey b key) = some obj
            ∧ expiredPer b obj now = true)))
    ∧ (∀ obj, resolvedEntry b st (hashForKey b key) = some obj →
        expiredPer b obj now = true →
        getItem b st key now = .err .keyError
          ⟨eraseA (hashForKey b key) st.cache,
           eraseA (pathForHash b (hashForKey b key)) st.fs⟩)
    ∧ (∀ sz, lookupA (hashForKey b key) st.cache = none →
        fileFor b st (hashForKey b key) = some ⟨.ioerr, sz⟩ →
        getItem b st key now = .err .ioError st) := by
  refine ⟨⟨?_, ?_⟩,
    fun obj hres hexp =>
      getItem_expired_deletes b st key now hinv havail obj hres hexp,
    fun sz hmem hio =>
      getItem_of_getObj_other
        (getObjFromHash_file_ioerr b st _ now sz hmem hio havail) rfl⟩
  · rintro ⟨st', hst'⟩
    cases hmem : lookupA (hashForKey b key) st.cache with
    | some obj0 =>
      have hfile := memBacked_spec hinv hmem
      by_cases hexp : expiredPer b obj0 now = true
      · refine Or.inr (Or.inr ⟨obj0, ?_, hexp⟩)
        simp [resolvedEntry, hmem]
      · rw [Bool.not_eq_true] at hexp
        rw [getItem_of_getObj_ok
          (getObjFromHash_mem_valid b st _ now true obj0 hmem hexp)] at hst'
        cases hst'
    | none =>
      cases hfile : lookupA (pathForHash b (hashForKey b key)) st.fs with
      | none => exact Or.inl hfile
      | some file =>
        cases file with
        | mk content sz =>
          cases content with
          | bad => exact Or.inr (Or.inl ⟨sz, hfile⟩)
          | ioerr =>
            rw [getItem_of_getObj_other
              (getObjFromHash_file_ioerr b st _ now sz hmem hfile havail)
              rfl] at hst'
            cases hst'
          | good v e =>
            by_cases hexp : expiredPer b ⟨v, e, loadConfig b⟩ now = true
            · refine Or.inr (Or.inr ⟨⟨v, e, loadConfig b⟩, ?_, hexp⟩)
              have hfile2 : fileFor b st (hashForKey b key) =
                some ⟨.good v e, sz⟩ := hfile
              simp only [resolvedEntry, hmem, hfile2,
                fromFile_good b v e sz havail]
            · rw [Bool.not_eq_true] at hexp
              rw [getItem_of_getObj_ok
                (getObjFromHash_file_good_valid b st _ now v e sz hmem hfile
                  havail hexp)] at hst'
              cases hst'
  · rintro (hfile | ⟨sz, hfile⟩ | ⟨obj, hres, hexp⟩)
    · cases hmem : lookupA (hashForKey b key) st.cache with
      | some obj0 =>
        have := memBacked_spec hinv hmem
        rw [show lookupA (pathForHash b (hashForKey b key)) st.fs = none
          from hfile] at this
        cases this
      | none =>
        exact ⟨st, getItem_of_getObj_invalid
          (getObjFromHash_miss_nofile b st _ now hmem hfile) rfl⟩
    · cases hmem : lookupA (hashForKey b key) st.cache with
      | some obj0 =>
        have := memBacked_spec hinv hmem
        rw [show lookupA (pathForHash b (hashForKey b key)) st.fs =
          some ⟨.bad, sz⟩ from hfile] at this
        simp at this
      | none =>
        exact ⟨st, getItem_of_getObj_invalid
          (getObjFromHash_file_bad b st _ now sz hmem hfile havail) rfl⟩
    · exact ⟨_, getItem_expired_deletes b st key now hinv havail obj hres
        hexp⟩

/-- Witness for C3: a state with one on-disk expired entry; `get` raises
`KeyError` and deletes the file. -/
theorem c3_getItem_keyError_witness :
    (memBacked pickle10 stExpired = true
      ∧ ¬(Bucket.kind pickle10 = .msgpack
          ∧ Bucket.msgpackAvailable pickle10 = false)
      ∧ resolvedEntry pickle10 stExpired (hashForKey pickle10 1) =
          some ⟨5, some 10, 7⟩
      ∧ expiredPer pickle10 ⟨5, some 10, 7⟩ 100 = true)
    ∧ getItem pickle10 stExpired 1 100 = .err .keyError
        ⟨eraseA (hashForKey pickle10 1) stExpired.cache,
         eraseA (pathForHash pickle10 (hashForKey pickle10 1))
           stExpired.fs⟩ :=
  ⟨⟨by decide, by decide, by decide, by decide⟩,
   (c3_getItem_keyError pickle10 stExpired 1 100 (by decide)
     (by decide)).2.1 ⟨5, some 10, 7⟩ (by decide) (by decide)⟩

/-- C10 -- `key in bucket` is a full `get` with `KeyError` caught: it returns
`True` exactly when `get` succeeds and `False` exactly when `get` raises
`KeyError`; in particular for an expired entry it deletes the backing file
and the memory entry and returns `False`, and for an on-disk entry it loads
the entry into the memory index and returns `True`. -/
theorem c10_contains_is_get {K : Type} (b : Bucket K) (st : State) (key : K)
    (now : Nat)
    (hinv : memBacked b st = true)
    (havail : ¬(b.kind = .msgpack ∧ b.msgpackAvailable = false)) :
    (∀ v st', getItem b st key now = .ok v st' →
      containsKey b st key now = .ok true st')
    ∧ (∀ st', getItem b st key now = .err .keyError st' →
      containsKey b st key now = .ok false st')
    ∧ (∀ obj, resolvedEntry b st (hashForKey b key) = some obj →
        expiredPer b obj now = true →
        containsKey b st key now = .ok false
          ⟨eraseA (hashForKey b key) st.cache,
           eraseA (pathForHash b (hashForKey b key)) st.fs⟩)
    ∧ (∀ v e sz, lookupA (hashForKey b key) st.cache = none →
        lookupA (pathForHash b (hashForKey b key)) st.fs =
          some ⟨.good v e, sz⟩ →
        expiredPer b ⟨v, e, loadConfig b⟩ now = false →
        containsKey b st key now = .ok true
          ⟨insertA (hashForKey b key) ⟨v, e, loadConfig b⟩ st.cache,
           st.fs⟩) := by
  refine ⟨?_, ?_, ?_, ?_⟩
  · intro v st' hg
    simp [containsKey, hg]
  · intro st' hg
    simp [containsKey, hg]
  · intro obj hres hexp
    have hg := getItem_expired_deletes b st key now hinv havail obj hres hexp
    simp [containsKey, hg]
  · intro v e sz hmem hfile hval
    have hg := getItem_of_getObj_ok
      (getObjFromHash_file_good_valid b st (hashForKey b key) now v e sz
        hmem hfile havail hval)
    simp [containsKey, hg]

/-- Witness for C10: membership on an expired on-disk-backed entry returns
`False` and deletes the file and memory entry. -/
theorem c10_contains_is_get_witness :
    (memBacked pickle10 stExpired = true
      ∧ resolvedEntry pickle10 stExpired (hashForKey pickle10 1) =
          some ⟨5, some 10, 7⟩
      ∧ expiredPer pickle10 ⟨5, some 10, 7⟩ 100 = true)
    ∧ containsKey pickle10 stExpired 1 100 = .ok false
        ⟨eraseA (hashForKey pickle10 1) stExpired.cache,
         eraseA (pathForHash pickle10 (hashForKey pickle10 1))
           stExpired.fs⟩ :=
  ⟨⟨by decide, by decide, by decide⟩,
   (c10_contains_is_get pickle10 stExpired 1 100 (by decide)
     (by decide)).2.2.1 ⟨5, some 10, 7⟩ (by decide) (by decide)⟩

/-- C8 -- On a cache hit the memoization wrapper returns the cached value
without invoking the function and without any mutation check; on the paths
that actually invoke the wrapped function (cache bypass via the skip-cache
parameter, or a `KeyInvalidError` cache miss), the signature hash is
recomputed on the post-call program state and compared with the pre-call
hash: on a mismatch `ValueError` (the spec's `NonCacheableMutation`) is
raised instead of returning. -/
theorem c8_mutation_detection {K S : Type} (b : Bucket K) (mc : MemoCall S)
    (st : State) (s : S) (now : Nat) :
    (∀ obj st1, mc.skipCache = false →
      getObjFromHash b st (mc.sigHash s) now true = .ok obj st1 →
      memoWrapper b mc st s now = .ok (obj.value, s) st1)
    ∧ (∀ obj2 st2, mc.skipCache = true →
      updateOrMakeObjWithHash b st (mc.sigHash s) (mc.call s).1 now =
        .ok obj2 st2 →
      memoWrapper b mc st s now =
        (if mc.sigHash (mc.call s).2 = mc.sigHash s
         then .ok ((mc.call s).1, (mc.call s).2)
           (setObjWithHash b st2 (mc.sigHash s) obj2)
         else .err .valueError (setObjWithHash b st2 (mc.sigHash s) obj2)))
    ∧ (∀ e st1 obj2 st2, mc.skipCache = false →
      getObjFromHash b st (mc.sigHash s) now true = .err e st1 →
      e.isKeyInvalid = true →
      updateOrMakeObjWithHash b st1 (mc.sigHash s) (mc.call s).1 now =
        .ok obj2 st2 →
      memoWrapper b mc st s now =
        (if mc.sigHash (mc.call s).2 = mc.sigHash s
         then .ok ((mc.call s).1, (mc.call s).2)
           (setObjWithHash b st2 (mc.sigHash s) obj2)
         else .err .valueError (setObjWithHash b st2 (mc.sigHash s) obj2))) := by
  refine ⟨?_, ?_, ?_⟩
  · intro obj st1 hskip hg
    simp [memoWrapper, loadOrCall, hskip, hg]
  · intro obj2 st2 hskip hup
    by_cases hmut : mc.sigHash (mc.call s).2 = mc.sigHash s <;>
      simp [memoWrapper, loadOrCall, hskip, hup, hmut]
  · intro e st1 obj2 st2 hskip hg hk hup
    by_cases hmut : mc.sigHash (mc.call s).2 = mc.sigHash s <;>
      simp [memoWrapper, loadOrCall, hskip, hg, hk, hup, hmut]

/-- A concrete memoized call that mutates state its signature depends on:
`sigHash` renders the state, the call increments it. -/
def memoMut : MemoCall Nat := ⟨fun s => hexString32 s, fun s => (7, s + 1), true⟩

/-- Witness for C8: the mutating call on a cache-bypass path raises
`ValueError`. -/
theorem c8_mutation_detection_witness :
    (MemoCall.skipCache memoMut = true
      ∧ updateOrMakeObjWithHash pickle10 emptyState (memoMut.sigHash 0)
          ((memoMut.call 0).1) 0 = .ok ⟨7, some 10, 0⟩ emptyState)
    ∧ memoWrapper pickle10 memoMut emptyState 0 0 =
        .err .valueError
          (setObjWithHash pickle10 emptyState (memoMut.sigHash 0)
            ⟨7, some 10, 0⟩) := by
  refine ⟨⟨rfl, by decide⟩, ?_⟩
  rw [(c8_mutation_detection pickle10 memoMut emptyState 0 0).2.1
    ⟨7, some 10, 0⟩ emptyState rfl (by decide)]
  decide

/-! ### Prune-directory characterization (C6) -/

/-- The files `prune_directory` removes: matching extension, decodable
content, expired under the current policy. -/
def isExpiredFile {K : Type} (b : Bucket K) (now : Nat) (p : FName × File) :
    Bool :=
  decide (p.1.ext = fileExtension b.kind) &&
    match p.2.content with
    | .good v e => expiredPer b ⟨v, e, loadConfig b⟩ now
    | _ => false

/-- Erase a list of names from a directory. -/
def eraseList (names : List FName) (fs : List (FName × File)) :
    List (FName × File) :=
  names.foldl (fun fs nm => eraseA nm fs) fs

theorem lookupA_eraseList (names : List FName) :
    ∀ (fs : List (FName × File)) (nm : FName),
      lookupA nm (eraseList names fs) =
        if nm ∈ names then none else lookupA nm fs := by
  induction names with
  | nil => intro fs nm; simp [eraseList]
  | cons n ns ih =>
    intro fs nm
    show lookupA nm (eraseList ns (eraseA n fs)) = _
    rw [ih]
    by_cases h1 : nm ∈ ns
    · simp [h1]
    · by_cases h2 : nm = n
      · subst h2
        simp [h1, lookupA_eraseA_self]
      · simp [h1, h2, lookupA_eraseA_ne fs h2]

theorem lookupA_of_mem_nodup {κ β : Type} [DecidableEq κ]
    {l : List (κ × β)} (hnd : (l.map Prod.fst).Nodup) {p : κ × β}
    (hp : p ∈ l) : lookupA p.1 l = some p.2 := by
  induction l with
  | nil => cases hp
  | cons q qs ih =>
    simp only [List.map_cons, List.nodup_cons] at hnd
    rcases List.mem_cons.mp hp with h | h
    · subst h
      simp [lookupA]
    · have hne : ¬q.1 = p.1 := by
        intro he
        exact hnd.1 (he ▸ List.mem_map_of_mem Prod.fst h)
      simp only [lookupA, if_neg hne]
      exact ih hnd.2 h

/-- The loop of `prune_directory`, on a snapshot of matching files over a
directory that contains them all, starting from an empty memory index:
expired decodable files are deleted and accumulated, undecodable files are
skipped, and the memory index ends empty. -/
theorem pruneGo_spec {K : Type} (b : Bucket K) (now : Nat)
    (havail : ¬(b.kind = .msgpack ∧ b.msgpackAvailable = false)) :
    ∀ (files : List (FName × File)) (fs : List (FName × File)) (s0 n0 : Nat),
      (files.map Prod.fst).Nodup →
      (∀ p ∈ files, lookupA p.1 fs = some p.2) →
      (∀ p ∈ files, p.1.ext = fileExtension b.kind) →
      (∀ p ∈ files, p.2.content ≠ .ioerr) →
      pruneGo b now files ⟨[], fs⟩ s0 n0 =
        .ok (s0 + ((files.filter (isExpiredFile b now)).map
              (fun p => p.2.size)).sum,
             n0 + (files.filter (isExpiredFile b now)).length)
          ⟨[], eraseList ((files.filter (isExpiredFile b now)).map Prod.fst)
            fs⟩ := by
  intro files
  induction files with
  | nil =>
    intro fs s0 n0 _ _ _ _
    simp [pruneGo, eraseList]
  | cons p rest ih =>
    intro fs s0 n0 hnd hlook hext hio
    obtain ⟨⟨stm, ex⟩, f⟩ := p
    have hext0 : ex = fileExtension b.kind := hext _ (List.mem_cons_self _ _)
    have hpath : pathForHash b stm = (⟨stm, ex⟩ : FName) := by
      simp [pathForHash, hext0]
    have hlook0 : lookupA (⟨stm, ex⟩ : FName) fs = some f :=
      hlook _ (List.mem_cons_self _ _)
    have hnds : ((⟨stm, ex⟩ : FName) :: rest.map Prod.fst).Nodup := by
      simpa using hnd
    have hnd1 : (⟨stm, ex⟩ : FName) ∉ rest.map Prod.fst :=
      (List.nodup_cons.mp hnds).1
    have hnd2 : (rest.map Prod.fst).Nodup := (List.nodup_cons.mp hnds).2
    have hrest_look : ∀ q ∈ rest, lookupA q.1 (eraseA (⟨stm, ex⟩ : FName) fs)
        = some q.2 := by
      intro q hq
      have hqne : q.1 ≠ (⟨stm, ex⟩ : FName) := by
        intro he
        exact hnd1 (he ▸ List.mem_map_of_mem Prod.fst hq)
      rw [lookupA_eraseA_ne fs hqne]
      exact hlook q (List.mem_cons_of_mem _ hq)
    have hrest_look2 : ∀ q ∈ rest, lookupA q.1 fs = some q.2 :=
      fun q hq => hlook q (List.mem_cons_of_mem _ hq)
    have hrest_ext : ∀ q ∈ rest, q.1.ext = fileExtension b.kind :=
      fun q hq => hext q (List.mem_cons_of_mem _ hq)
    have hrest_io : ∀ q ∈ rest, q.2.content ≠ .ioerr :=
      fun q hq => hio q (List.mem_cons_of_mem _ hq)
    have hmem0 : lookupA stm (State.cache ⟨[], fs⟩) = none := rfl
    obtain ⟨content, sz⟩ := f
    cases content with
    | ioerr => exact absurd rfl (hio _ (List.mem_cons_self _ _))
    | bad =>
      have hg : getObjFromHash b ⟨[], fs⟩ stm now true =
          .err .keyInvalid ⟨[], fs⟩ :=
        getObjFromHash_file_bad b ⟨[], fs⟩ stm now sz hmem0
          (by rw [hpath]; exact hlook0) havail
      have hstep : pruneGo b now ((⟨⟨stm, ex⟩, ⟨.bad, sz⟩⟩ : FName × File)
          :: rest) ⟨[], fs⟩ s0 n0 = pruneGo b now rest ⟨[], fs⟩ s0 n0 := by
        simp [pruneGo, hg, Err.isKeyInvalid]
      rw [hstep, ih fs s0 n0 hnd2 hrest_look2 hrest_ext hrest_io]
      have hfalse : isExpiredFile b now (⟨⟨stm, ex⟩, ⟨.bad, sz⟩⟩) = false := by
        simp [isExpiredFile]
      simp [hfalse]
    | good v e =>
      by_cases hexp : expiredPer b ⟨v, e, loadConfig b⟩ now = true
      · have hg0 := getObjFromHash_file_good_expired b ⟨[], fs⟩ stm now v e sz
          hmem0 (by rw [hpath]; exact hlook0) havail hexp
        have hg : getObjFromHash b ⟨[], fs⟩ stm now true =
            .err .keyExpiration ⟨[], eraseA (pathForHash b stm) fs⟩ := hg0
        rw [hpath] at hg
        have hstep : pruneGo b now ((⟨⟨stm, ex⟩, ⟨.good v e, sz⟩⟩ :
            FName × File) :: rest) ⟨[], fs⟩ s0 n0 =
            pruneGo b now rest ⟨[], eraseA (⟨stm, ex⟩ : FName) fs⟩
              (s0 + sz) (n0 + 1) := by
          simp [pruneGo, hg]
        rw [hstep, ih (eraseA (⟨stm, ex⟩ : FName) fs) (s0 + sz) (n0 + 1)
          hnd2 hrest_look hrest_ext hrest_io]
        have htrue : isExpiredFile b now (⟨⟨stm, ex⟩, ⟨.good v e, sz⟩⟩)
            = true := by
          simp [isExpiredFile, hext0, hexp]
        have hfilter : ((⟨⟨stm, ex⟩, ⟨.good v e, sz⟩⟩ : FName × File)
            :: rest).filter (isExpiredFile b now) =
            (⟨⟨stm, ex⟩, ⟨.good v e, sz⟩⟩ : FName × File)
            :: rest.filter (isExpiredFile b now) := by
          simp [List.filter_cons, htrue]
        rw [hfilter]
        simp only [List.map_cons, List.sum_cons, List.length_cons]
        have hs : s0 + sz + ((rest.filter (isExpiredFile b now)).map
            (fun p => p.2.size)).sum = s0 + (sz +
            ((rest.filter (isExpiredFile b now)).map
              (fun p => p.2.size)).sum) := by omega
        have hn : n0 + 1 + (rest.filter (isExpiredFile b now)).length =
            n0 + ((rest.filter (isExpiredFile b now)).length + 1) := by omega
        rw [hs, hn]
        rfl
      · have hval : expiredPer b ⟨v, e, loadConfig b⟩ now = false := by
          simpa using hexp
        have hg0 := getObjFromHash_file_good_valid b ⟨[], fs⟩ stm now v e sz
          hmem0 (by rw [hpath]; exact hlook0) havail hval
        have hstep : pruneGo b now ((⟨⟨stm, ex⟩, ⟨.good v e, sz⟩⟩ :
            FName × File) :: rest) ⟨[], fs⟩ s0 n0 =
            pruneGo b now rest
              ⟨eraseA stm (insertA stm ⟨v, e, loadConfig b⟩ []), fs⟩ s0 n0 := by
          simp [pruneGo, hg0, lookupA]
        rw [eraseA_insertA_self] at hstep
        have hstep2 : pruneGo b now ((⟨⟨stm, ex⟩, ⟨.good v e, sz⟩⟩ :
            FName × File) :: rest) ⟨[], fs⟩ s0 n0 =
            pruneGo b now rest ⟨[], fs⟩ s0 n0 := hstep
        rw [hstep2, ih fs s0 n0 hnd2 hrest_look2 hrest_ext hrest_io]
        have hfalse : isExpiredFile b now (⟨⟨stm, ex⟩, ⟨.good v e, sz⟩⟩)
            = false := by
          simp [isExpiredFile, hval]
        simp [hfalse]

theorem filter_ext_filter_isExpiredFile {K : Type} (b : Bucket K) (now : Nat)
    (fs : List (FName × File)) :
    (fs.filter (fun p => decide (p.1.ext = fileExtension b.kind))).filter
      (isExpiredFile b now) = fs.filter (isExpiredFile b now) := by
  induction fs with
  | nil => rfl
  | cons p rest ih =>
    by_cases hd : p.1.ext = fileExtension b.kind
    · simp [List.filter_cons, hd, ih]
    · have hne : isExpiredFile b now p = false := by
        simp [isExpiredFile, hd]
      simp [List.filter_cons, hd, hne, ih]

/-- C6 -- `prune_directory` scans exactly the files whose extension matches
the active backend's; every matching decodable file that is expired is
deleted and contributes its size to the returned total, every matching file
that fails to decode is left untouched on disk; the result is the pair
(total bytes removed, number of files removed); stated over a bucket whose
memory index is empty (a fresh bucket scanning a directory), with no
pending low-level I/O errors among matching files. -/
theorem c6_prune_directory {K : Type} (b : Bucket K) (st : State) (now : Nat)
    (hcache : st.cache = [])
    (hnd : (st.fs.map Prod.fst).Nodup)
    (havail : ¬(b.kind = .msgpack ∧ b.msgpackAvailable = false))
    (hio : ∀ p ∈ st.fs, p.1.ext = fileExtension b.kind →
      p.2.content ≠ .ioerr) :
    pruneDirectory b st now =
      .ok (((st.fs.filter (isExpiredFile b now)).map
            (fun p => p.2.size)).sum,
           (st.fs.filter (isExpiredFile b now)).length)
        ⟨[], eraseList ((st.fs.filter (isExpiredFile b now)).map Prod.fst)
          st.fs⟩
    ∧ (∀ p ∈ st.fs, isExpiredFile b now p = true →
        lookupA p.1 (stateOf (pruneDirectory b st now)).fs = none)
    ∧ (∀ p ∈ st.fs, isExpiredFile b now p = false →
        lookupA p.1 (stateOf (pruneDirectory b st now)).fs = some p.2) := by
  obtain ⟨c, fs⟩ := st
  have hc : c = [] := hcache
  subst hc
  have hnd' : (fs.map Prod.fst).Nodup := hnd
  have hio' : ∀ p ∈ fs, p.1.ext = fileExtension b.kind →
      p.2.content ≠ .ioerr := hio
  have hfiles_nd : ((fs.filter (fun p =>
      decide (p.1.ext = fileExtension b.kind))).map Prod.fst).Nodup := by
    refine List.Nodup.sublist ?_ hnd'
    exact List.Sublist.map Prod.fst (List.filter_sublist fs)
  have hfiles_look : ∀ p ∈ fs.filter (fun p =>
      decide (p.1.ext = fileExtension b.kind)), lookupA p.1 fs = some p.2 :=
    fun p hp => lookupA_of_mem_nodup hnd' (List.mem_of_mem_filter hp)
  have hfiles_ext : ∀ p ∈ fs.filter (fun p =>
      decide (p.1.ext = fileExtension b.kind)),
      p.1.ext = fileExtension b.kind := by
    intro p hp
    exact of_decide_eq_true (List.mem_filter.mp hp).2
  have hfiles_io : ∀ p ∈ fs.filter (fun p =>
      decide (p.1.ext = fileExtension b.kind)), p.2.content ≠ .ioerr :=
    fun p hp => hio' p (List.mem_of_mem_filter hp) (hfiles_ext p hp)
  have hrun0 := pruneGo_spec b now havail
    (fs.filter (fun p => decide (p.1.ext = fileExtension b.kind))) fs 0 0
    hfiles_nd hfiles_look hfiles_ext hfiles_io
  rw [filter_ext_filter_isExpiredFile b now fs] at hrun0
  rw [Nat.zero_add, Nat.zero_add] at hrun0
  have hst : stateOf (pruneDirectory b ⟨[], fs⟩ now) =
      ⟨[], eraseList ((fs.filter (isExpiredFile b now)).map Prod.fst) fs⟩ := by
    show stateOf (pruneGo b now (fs.filter (fun p =>
      decide (p.1.ext = fileExtension b.kind))) ⟨[], fs⟩ 0 0) = _
    rw [hrun0]
    rfl
  refine ⟨hrun0, ?_, ?_⟩
  · intro p hp hexp
    rw [hst]
    show lookupA p.1 (eraseList ((fs.filter (isExpiredFile b now)).map
      Prod.fst) fs) = none
    rw [lookupA_eraseList]
    rw [if_pos]
    exact List.mem_map_of_mem Prod.fst (List.mem_filter.mpr ⟨hp, hexp⟩)
  · intro p hp hexp
    rw [hst]
    show lookupA p.1 (eraseList ((fs.filter (isExpiredFile b now)).map
      Prod.fst) fs) = some p.2
    rw [lookupA_eraseList]
    rw [if_neg]
    · exact lookupA_of_mem_nodup hnd' hp
    · intro hmemname
      obtain ⟨q, hq, hq1⟩ := List.mem_map.mp hmemname
      have hqfs := List.mem_of_mem_filter hq
      have hqexp := (List.mem_filter.mp hq).2
      have hlp := lookupA_of_mem_nodup hnd' hp
      have hlq := lookupA_of_mem_nodup hnd' hqfs
      rw [hq1] at hlq
      rw [hlp] at hlq
      have hpq : q = p := by
        obtain ⟨q1, q2⟩ := q
        obtain ⟨p1, p2⟩ := p
        simp at hq1
        simp at hlq
        simp [hq1, hlq]
      rw [hpq] at hqexp
      rw [hexp] at hqexp
      cases hqexp

/-- The concrete prune scenario: two expired entries (sizes 4 and 6) and one
live entry (expiring at 105, size 5) under the same extension. -/
def stPrune : State :=
  ⟨[], [(⟨"a", "pickle"⟩, ⟨.good 1 (some 10), 4⟩),
        (⟨"b", "pickle"⟩, ⟨.good 2 (some 10), 6⟩),
        (⟨"c", "pickle"⟩, ⟨.good 3 (some 105), 5⟩)]⟩

/-- Witness for C6: on the 2-expired/1-live directory at time 100, prune
returns total size 10 and count 2, deletes the two expired files and leaves
the live one. -/
theorem c6_prune_directory_witness :
    (State.cache stPrune = [] ∧ ((State.fs stPrune).map Prod.fst).Nodup
      ∧ ((stPrune.fs.filter (isExpiredFile pickle10 100)).map
          (fun p => p.2.size)).sum = 10
      ∧ (stPrune.fs.filter (isExpiredFile pickle10 100)).length = 2)
    ∧ pruneDirectory pickle10 stPrune 100 =
        .ok (((stPrune.fs.filter (isExpiredFile pickle10 100)).map
              (fun p => p.2.size)).sum,
             (stPrune.fs.filter (isExpiredFile pickle10 100)).length)
          ⟨[], eraseList ((stPrune.fs.filter
              (isExpiredFile pickle10 100)).map Prod.fst) stPrune.fs⟩
    ∧ lookupA ⟨"a", "pickle"⟩
        (stateOf (pruneDirectory pickle10 stPrune 100)).fs = none
    ∧ lookupA ⟨"c", "pickle"⟩
        (stateOf (pruneDirectory pickle10 stPrune 100)).fs =
        some ⟨.good 3 (some 105), 5⟩ :=
  ⟨⟨rfl, by decide, by decide, by decide⟩,
   (c6_prune_directory pickle10 stPrune 100 rfl (by decide) (by decide)
     (by decide)).1,
   (c6_prune_directory pickle10 stPrune 100 rfl (by decide) (by decide)
     (by decide)).2.1 (⟨"a", "pickle"⟩, ⟨.good 1 (some 10), 4⟩)
     (by decide) (by decide),
   (c6_prune_directory pickle10 stPrune 100 rfl (by decide) (by decide)
     (by decide)).2.2 (⟨"c", "pickle"⟩, ⟨.good 3 (some 105), 5⟩)
     (by decide) (by decide)⟩

end BucketCache
